import Mathlib

/-!
Shallow embedding of the `logstorage` predicate-evaluation core:
the bloom filter (`bloomfilter.go` part of the source) and the filter
variants with their per-type matchers (`filters.go` part of the source).

Modelling conventions:
* Go `uint64`/`uint32`/byte values are `Nat` with explicit `% 2 ^ 64`
  (resp. bounds) where overflow can occur.
* Go `string` is modelled as Lean `String` (a list of unicode scalar
  values).  The Go code indexes strings by UTF-8 byte; for valid UTF-8
  input every byte-level substring occurrence of a valid needle starts
  on a rune boundary, so the rune-level model coincides with the
  byte-level code on all valid-UTF-8 inputs.  Binary column encodings
  (one byte per `uint8` row value, etc.) are strings of chars with
  code points below 256, matching Go's byte strings.
* `xxhash.Sum64` is an external third-party hash; it is abstracted as
  two function parameters: the hash of a token string and the hash of
  the 8-byte little-endian buffer holding a `uint64` counter.
* `float64` appears only in guard comparisons for the claims below; it
  is modelled as `Rat` (NaN/Inf behaviour is out of scope).
-/

namespace Logstorage

/-- bloomFilterHashesCount is the number of different hashes to use for bloom filter. -/
def bloomFilterHashesCount : Nat := 6

/-- bloomFilterBitsPerItem is the number of bits to use per each token. -/
def bloomFilterBitsPerItem : Nat := 16

/-- Modelled from the spec: `encoding.MarshalUint64` (lib/encoding, not under
src/) renders one 64-bit word as 8 little-endian bytes ("sequence of 8-byte
little-endian words"). Each byte is reduced mod 256 as Go's byte conversion does. -/
def marshalUint64Bytes (w : Nat) : List Nat :=
  [w % 256, w / 2 ^ 8 % 256, w / 2 ^ 16 % 256, w / 2 ^ 24 % 256,
   w / 2 ^ 32 % 256, w / 2 ^ 40 % 256, w / 2 ^ 48 % 256, w / 2 ^ 56 % 256]

/-- Modelled from the spec: `encoding.UnmarshalUint64` (lib/encoding, not under
src/) reads the first 8 bytes of `src` as one little-endian 64-bit word. -/
def unmarshalUint64Bytes (src : List Nat) : Nat :=
  src.getD 0 0 + 2 ^ 8 * src.getD 1 0 + 2 ^ 16 * src.getD 2 0 + 2 ^ 24 * src.getD 3 0 +
    2 ^ 32 * src.getD 4 0 + 2 ^ 40 * src.getD 5 0 + 2 ^ 48 * src.getD 6 0 +
    2 ^ 56 * src.getD 7 0

/-- marshal appends marshaled bf to dst and returns the result
(`bloomFilter.marshal`: one `MarshalUint64` per word). -/
def bloomFilterMarshal (dst : List Nat) (bits : List Nat) : List Nat :=
  bits.foldl (fun dst word => dst ++ marshalUint64Bytes word) dst

/-- The word-reading loop of `bloomFilter.unmarshal`: `wordsCount` words, each
read from the front of `src`, then `src = src[8:]`. -/
def unmarshalWords : Nat → List Nat → List Nat
  | 0, _ => []
  | n + 1, src => unmarshalUint64Bytes src :: unmarshalWords n (src.drop 8)

/-- unmarshal unmarshals bf from src; errors (`none`) when the length is not a
multiple of 8, otherwise yields the words. -/
def bloomFilterUnmarshal (src : List Nat) : Option (List Nat) :=
  if src.length % 8 ≠ 0 then none
  else some (unmarshalWords (src.length / 8) src)

/-- The body of the `initBloomFilter` loop: set the bit `h % maxBits` (word
`idx / 64`, bit `idx % 64`) unless it is already set. -/
def bloomSetBit (maxBits : Nat) (bits : List Nat) (h : Nat) : List Nat :=
  let idx := h % maxBits
  let i := idx / 64
  let j := idx % 64
  let mask := 1 <<< j
  let w := bits.getD i 0
  if w &&& mask == 0 then bits.set i (w ||| mask) else bits

/-- initBloomFilter sets, for every hash, the bit at `hash mod totalBits`.
`maxBits` is computed once up front as in the source; `List.set` keeps the
length invariant, so the two readings agree. -/
def initBloomFilter (bits hashes : List Nat) : List Nat :=
  hashes.foldl (bloomSetBit (bits.length * 64)) bits

/-- The per-hash membership test of the `containsAll` loop. -/
def bloomTestBit (maxBits : Nat) (bits : List Nat) (h : Nat) : Bool :=
  let idx := h % maxBits
  let i := idx / 64
  let j := idx % 64
  let mask := 1 <<< j
  !(bits.getD i 0 &&& mask == 0)

/-- containsAll returns true if bf contains all the given tokens hashes
generated by appendTokensHashes; an empty bit array matches everything. -/
def containsAll (bits : List Nat) (hashes : List Nat) : Bool :=
  if bits.length == 0 then true
  else hashes.all (bloomTestBit (bits.length * 64) bits)

/-- The 6 probe hashes derived from one seed hash: the seed is stored in an
8-byte little-endian buffer, each probe hashes the buffer and then increments
the stored `uint64` (wrapping mod `2 ^ 64`).  `hashLE64` abstracts
`xxhash.Sum64` applied to that buffer. -/
def seedHashes (hashLE64 : Nat → Nat) (seed : Nat) : List Nat :=
  (List.range bloomFilterHashesCount).map (fun i => hashLE64 ((seed + i) % 2 ^ 64))

/-- appendTokensHashes appends hashes for the given tokens to dst and returns
the result; `hashStr` abstracts `xxhash.Sum64` on the token bytes (a `uint64`,
hence the reduction mod `2 ^ 64` at the buffer store). -/
def appendTokensHashes (hashStr : String → Nat) (hashLE64 : Nat → Nat)
    (dst : List Nat) (tokens : List String) : List Nat :=
  dst ++ (tokens.map (fun token => seedHashes hashLE64 (hashStr token % 2 ^ 64))).flatten

/-- mustInitTokens initializes bf with the given tokens: size the words to
`ceil(len(tokens)*16/64)` and add all token hashes.  The underlying buffer is
zeroed (pooled bloom filters are cleared by `reset` before reuse). -/
def mustInitTokens (hashStr : String → Nat) (hashLE64 : Nat → Nat)
    (tokens : List String) : List Nat :=
  let bitsCount := tokens.length * bloomFilterBitsPerItem
  let wordsCount := (bitsCount + 63) / 64
  initBloomFilter (List.replicate wordsCount 0)
    (appendTokensHashes hashStr hashLE64 [] tokens)

/-- Modelled from the spec: `isTokenRune` (tokenizer, not under src/) holds for
the "token" characters: alphanumeric or underscore. -/
def isTokenRune (c : Char) : Bool := c.isAlphanum || c == '_'

/-- utf8.RuneError, the replacement character returned by rune decoding. -/
def runeError : Char := Char.ofNat 0xFFFD

/-- The boundary test shared by the phrase/prefix loops: a position is blocked
when the adjacent rune decodes to `utf8.RuneError` or is a token rune. -/
def boundaryBlocks (c : Char) : Bool := c == runeError || isTokenRune c

/-- strings.Index at the rune level: the first index where `pat` occurs in
`s`, or `none`. -/
def listIndexOf (s pat : List Char) : Option Nat :=
  if pat.isPrefixOf s then some 0
  else
    match s with
    | [] => none
    | _ :: rest => (listIndexOf rest pat).map (· + 1)

/-- The search loop of `getPhrasePos`: find the next occurrence of the phrase
at or after `pos`, skip it (`pos++; continue`) when a required boundary falls
inside a token, else return its position.  The loop's `pos` strictly increases
and never exceeds `len(s)`, so fuel `len(s) + 1` at entry makes the fuel-out
branch unreachable. -/
def getPhrasePosLoop (s phrase : List Char) (startsWithToken endsWithToken : Bool) :
    Nat → Nat → Option Nat
  | 0, _ => none
  | fuel + 1, pos =>
    match listIndexOf (s.drop pos) phrase with
    | none => none
    | some n =>
      if startsWithToken && decide (0 < pos + n) &&
          boundaryBlocks (s.getD (pos + n - 1) ' ') then
        getPhrasePosLoop s phrase startsWithToken endsWithToken fuel (pos + n + 1)
      else if endsWithToken && decide (pos + n + phrase.length < s.length) &&
          boundaryBlocks (s.getD (pos + n + phrase.length) ' ') then
        getPhrasePosLoop s phrase startsWithToken endsWithToken fuel (pos + n + 1)
      else some (pos + n)

/-- getPhrasePos: position of the first boundary-respecting occurrence of
`phrase` in `s` (`none` for Go's `-1`). -/
def getPhrasePos (s phrase : List Char) : Option Nat :=
  if phrase.length == 0 then some 0
  else if phrase.length > s.length then none
  else
    getPhrasePosLoop s phrase (isTokenRune (phrase.headD ' '))
      (isTokenRune (phrase.getLastD ' ')) (s.length + 1) 0

/-- matchPhrase: an empty phrase matches only the empty string; otherwise a
boundary-respecting occurrence must exist. -/
def matchPhrase (s phrase : String) : Bool :=
  if phrase.data.length == 0 then s.data.length == 0
  else (getPhrasePos s.data phrase.data).isSome

/-- The search loop of `matchPrefix`: like the phrase loop but with only the
start boundary checked. -/
def matchPrefixLoop (s pfx : List Char) (startsWithToken : Bool) :
    Nat → Nat → Bool
  | 0, _ => false
  | fuel + 1, offset =>
    match listIndexOf (s.drop offset) pfx with
    | none => false
    | some n =>
      if startsWithToken && decide (0 < offset + n) &&
          boundaryBlocks (s.getD (offset + n - 1) ' ') then
        matchPrefixLoop s pfx startsWithToken fuel (offset + n + 1)
      else true

/-- matchPrefix: the empty prefix matches exactly the non-empty strings;
otherwise the prefix must occur starting at a text boundary whenever its first
rune is a token rune. -/
def matchPrefix (s pfx : String) : Bool :=
  if pfx.data.length == 0 then decide (s.data.length > 0)
  else if pfx.data.length > s.data.length then false
  else matchPrefixLoop s.data pfx.data (isTokenRune (pfx.data.headD ' '))
    (s.data.length + 1) 0

/-- Go string comparison `<`: lexicographic over the underlying bytes, which
for valid UTF-8 coincides with rune-level lexicographic comparison. -/
def goStringLt : List Char → List Char → Bool
  | _, [] => false
  | [], _ :: _ => true
  | a :: as, b :: bs =>
    if a.val < b.val then true
    else if b.val < a.val then false
    else goStringLt as bs

/-- matchStringRange: `s >= minValue && s < maxValue`. -/
def matchStringRange (s minValue maxValue : String) : Bool :=
  !goStringLt s.data minValue.data && goStringLt s.data maxValue.data

/-- matchLenRange: `utf8.RuneCountInString(s)` is the number of unicode scalar
values, i.e. `s.data.length`. -/
def matchLenRange (s : String) (minLen maxLen : Nat) : Bool :=
  let sLen := s.data.length
  decide (sLen ≥ minLen) && decide (sLen ≤ maxLen)

/-- Code point of a char, used for the byte values of binary-encoded column
values (all below 256). -/
def charByte (c : Char) : Nat := c.val.toNat

/-- The bytes of a (binary) Go string. -/
def stringBytes (s : String) : List Nat := s.data.map charByte

/-- A Go byte string from bytes (each reduced mod 256, as Go's byte does). -/
def bytesToString (bs : List Nat) : String :=
  String.mk (bs.map (fun b => Char.ofNat (b % 256)))

/-- Modelled from the spec: `tryParseUint64` (not under src/) parses a decimal
unsigned integer literal; it degrades to `none` for empty, over-long or
non-digit input ("literal fails to parse as the column's type"). -/
def tryParseUint64 (s : String) : Option Nat :=
  if s.data.length == 0 || s.data.length > 20 then none
  else if s.data.all Char.isDigit then
    let n := s.data.foldl (fun acc c => acc * 10 + (charByte c - 48)) 0
    if n < 2 ^ 64 then some n else none
  else none

/-- Modelled from the spec: `tryParseIPv4` (not under src/) parses a dotted
quad `a.b.c.d` into the 32-bit address. -/
def tryParseIPv4 (s : String) : Option Nat :=
  match (s.split (· == '.')).map tryParseUint64 with
  | [some a, some b, some c, some d] =>
    if a < 256 && b < 256 && c < 256 && d < 256 then
      some (a * 2 ^ 24 + b * 2 ^ 16 + c * 2 ^ 8 + d)
    else none
  | _ => none

/-- Modelled from the spec: `encoding.MarshalUint16` as 2 little-endian bytes. -/
def marshalUint16Bytes (w : Nat) : List Nat := [w % 256, w / 2 ^ 8 % 256]

/-- Modelled from the spec: `encoding.MarshalUint32` as 4 little-endian bytes. -/
def marshalUint32Bytes (w : Nat) : List Nat :=
  [w % 256, w / 2 ^ 8 % 256, w / 2 ^ 16 % 256, w / 2 ^ 24 % 256]

/-- Modelled from the spec: `encoding.UnmarshalUint16` on the bytes of a
2-byte binary value. -/
def unmarshalUint16Bytes (bs : List Nat) : Nat := bs.getD 0 0 + 2 ^ 8 * bs.getD 1 0

/-- Modelled from the spec: `encoding.UnmarshalUint32` on the bytes of a
4-byte binary value. -/
def unmarshalUint32Bytes (bs : List Nat) : Nat :=
  bs.getD 0 0 + 2 ^ 8 * bs.getD 1 0 + 2 ^ 16 * bs.getD 2 0 + 2 ^ 24 * bs.getD 3 0

/-- Primitives of collaborators that live outside src/: the third-party hash,
the tokenizer, unicode case mapping, and the float64/timestamp parsing and
rendering helpers.  Modelled from the spec as abstract functions; no claim
below depends on their concrete behaviour. -/
structure Prims where
  hashStr : String → Nat
  hashLE64 : Nat → Nat
  tokenize : String → List String
  toLower : String → String
  toUpper : String → String
  tryParseFloat64 : String → Option Rat
  tryParseTimestampISO8601 : String → Option Nat
  float64frombits : Nat → Rat
  float64bits : Rat → Nat
  toFloat64String : String → String
  toIPv4String : String → String
  toTimestampISO8601String : String → String

/-- isASCIILowercase: no byte is `>= utf8.RuneSelf` or an ASCII uppercase
letter. -/
def isASCIILowercase (s : String) : Bool :=
  s.data.all (fun c => !(charByte c ≥ 128 || (c ≥ 'A' && c ≤ 'Z')))

/-- matchAnyCasePrefix: the ASCII-lowercase fast path, else lowercase `s`
first (`stringsutil.AppendLowercase`, abstracted as `prims.toLower`). -/
def matchAnyCasePrefix (prims : Prims) (s pfxLowercase : String) : Bool :=
  if pfxLowercase.data.length == 0 then decide (s.data.length > 0)
  else if pfxLowercase.data.length > s.data.length then false
  else if isASCIILowercase s then matchPrefix s pfxLowercase
  else matchPrefix (prims.toLower s) pfxLowercase

/-- matchAnyCasePhrase: as `matchAnyCasePrefix` but for phrases. -/
def matchAnyCasePhrase (prims : Prims) (s phraseLowercase : String) : Bool :=
  if phraseLowercase.data.length == 0 then decide (s.data.length == 0)
  else if phraseLowercase.data.length > s.data.length then false
  else if isASCIILowercase s then matchPhrase s phraseLowercase
  else matchPhrase (prims.toLower s) phraseLowercase

/-- matchIPv4Range: parse and compare against the closed 32-bit range. -/
def matchIPv4Range (s : String) (minValue maxValue : Nat) : Bool :=
  match tryParseIPv4 s with
  | none => false
  | some n => decide (n ≥ minValue) && decide (n ≤ maxValue)

/-- matchRange: parse as float64 and compare against the closed range. -/
def matchRange (prims : Prims) (s : String) (minValue maxValue : Rat) : Bool :=
  match prims.tryParseFloat64 s with
  | none => false
  | some f => decide (f ≥ minValue) && decide (f ≤ maxValue)

/-- getTokensSkipLast drops the trailing (possibly incomplete) token runes of
the prefix, then tokenizes the rest (`tokenizeStrings(nil, [s])` is
`prims.tokenize s`). -/
def getTokensSkipLast (tokenize : String → List String) (s : String) : List String :=
  tokenize (String.mk ((s.data.reverse.dropWhile isTokenRune).reverse))

/-- toUint64Clamp: negative floats clamp to 0, floats above `MaxUint64` clamp
to `MaxUint64`, otherwise Go truncates toward zero (floor for non-negatives). -/
def toUint64Clamp (f : Rat) : Nat :=
  if f < 0 then 0
  else if f > ((2 ^ 64 - 1 : Nat) : Rat) then 2 ^ 64 - 1
  else f.floor.toNat

/-- toUint64Range: ceil the lower bound, floor the upper bound, clamp both. -/
def toUint64Range (minValue maxValue : Rat) : Nat × Nat :=
  (toUint64Clamp (minValue.ceil : Rat), toUint64Clamp (maxValue.floor : Rat))

/-- toUint8String: decimal rendering of a 1-byte binary value (the source
aborts on a width mismatch; the model yields a dummy non-value). -/
def toUint8String (v : String) : String :=
  if v.data.length ≠ 1 then "" else toString ((stringBytes v).getD 0 0)

/-- toUint16String: decimal rendering of a 2-byte binary value. -/
def toUint16String (v : String) : String :=
  if v.data.length ≠ 2 then "" else toString (unmarshalUint16Bytes (stringBytes v))

/-- toUint32String: decimal rendering of a 4-byte binary value. -/
def toUint32String (v : String) : String :=
  if v.data.length ≠ 4 then "" else toString (unmarshalUint32Bytes (stringBytes v))

/-- toUint64String: decimal rendering of an 8-byte binary value. -/
def toUint64String (v : String) : String :=
  if v.data.length ≠ 8 then "" else toString (unmarshalUint64Bytes (stringBytes v))

/-- matchMinMaxValueLen: the decimal rendering of `ch.minValue` must not
exceed `maxLen` and the rendering of `ch.maxValue` must reach `minLen`. -/
def matchMinMaxValueLenCheck (minValue maxValue minLen maxLen : Nat) : Bool :=
  if maxLen < (toString minValue).data.length then false
  else decide (minLen ≤ (toString maxValue).data.length)

/-- The stored value types (`valueTypeString` .. `valueTypeTimestampISO8601`);
an unknown tag aborts the process in the source (`logger.Panicf`), so the
model's type is closed. -/
inductive ValueType where
  | string
  | dict
  | uint8
  | uint16
  | uint32
  | uint64
  | float64
  | ipv4
  | timestampISO8601
deriving DecidableEq

/-- columnHeader: per-field block metadata (value type, min/max reinterpreted
per type as raw `uint64`s, the dictionary values for dict columns). -/
structure ColumnHeader where
  valueType : ValueType
  minValue : Nat
  maxValue : Nat
  valuesDictValues : List String

/-- Modelled from the spec: the "block search context" collaborator —
column-header lookup by field name (nullable), constant-value lookup (empty
string if not constant), ordered per-row raw value access, bloom-filter
access, the block's row count and its stream identifier. -/
structure BlockSearch where
  getConstColumnValue : String → String
  getColumnHeader : String → Option ColumnHeader
  getValuesForColumn : ColumnHeader → List String
  getBloomFilterForColumn : ColumnHeader → List Nat
  rowsCount : Nat
  blockStreamID : Nat

/-- Modelled from the spec: `bitmap.resetBits` clears all bits. -/
def resetBits (bm : List Bool) : List Bool := bm.map (fun _ => false)

/-- Modelled from the spec: `bitmap.isZero` — no bit is set. -/
def bitmapIsZero (bm : List Bool) : Bool := bm.all (fun b => !b)

/-- The row loop of `bitmap.forEachSetBit`: visit each still-set row index and
clear the bit when the callback rejects the row. -/
def forEachSetBitFrom (f : Nat → Bool) : Nat → List Bool → List Bool
  | _, [] => []
  | i, b :: rest => (b && f i) :: forEachSetBitFrom f (i + 1) rest

/-- Modelled from the spec: `bitmap.forEachSetBit` visits set rows and clears
bits for rows the callback rejects; it never sets a cleared bit. -/
def forEachSetBit (bm : List Bool) (f : Nat → Bool) : List Bool :=
  forEachSetBitFrom f 0 bm

/-- visitValues: skip the scan when no bit is set, else test every still-set
row's raw value. -/
def visitValues (bs : BlockSearch) (ch : ColumnHeader) (bm : List Bool)
    (f : String → Bool) : List Bool :=
  if bitmapIsZero bm then bm
  else forEachSetBit bm (fun idx => f ((bs.getValuesForColumn ch).getD idx ""))

/-- matchBloomFilterAllTokens: an empty token list always matches; otherwise
the column's bloom filter must contain every token (the tokens are hashed via
`appendTokensHashes`, whose output `containsAll` consumes). -/
def matchBloomFilterAllTokens (prims : Prims) (bs : BlockSearch) (ch : ColumnHeader)
    (tokens : List String) : Bool :=
  if tokens.length == 0 then true
  else containsAll (bs.getBloomFilterForColumn ch)
    (appendTokensHashes prims.hashStr prims.hashLE64 [] tokens)

/-- It is faster to match every row in the block instead of checking too big
number of tokenSets against bloom filter. -/
def maxTokenSetsToInit : Nat := 1000

/-- matchBloomFilterAnyTokenSet: no token set matches nothing; too many token
sets (over 1000 or over 10x the row count) skip the bloom filter; otherwise
some token set must be fully contained. -/
def matchBloomFilterAnyTokenSet (prims : Prims) (bs : BlockSearch) (ch : ColumnHeader)
    (tokenSets : List (List String)) : Bool :=
  if tokenSets.length == 0 then false
  else if tokenSets.length > maxTokenSetsToInit || tokenSets.length > 10 * bs.rowsCount then
    true
  else tokenSets.any (fun tokens =>
    containsAll (bs.getBloomFilterForColumn ch)
      (appendTokensHashes prims.hashStr prims.hashLE64 [] tokens))

/-- matchBinaryValue: bloom-gate on the tokens, then exact raw-value scan. -/
def matchBinaryValue (prims : Prims) (bs : BlockSearch) (ch : ColumnHeader)
    (bm : List Bool) (binValue : String) (tokens : List String) : List Bool :=
  if !matchBloomFilterAllTokens prims bs ch tokens then resetBits bm
  else visitValues bs ch bm (fun v => v == binValue)

/-- matchAnyValue: bloom-gate on any token set, then raw-value membership scan. -/
def matchAnyValue (prims : Prims) (bs : BlockSearch) (ch : ColumnHeader)
    (bm : List Bool) (values : List String) (tokenSets : List (List String)) : List Bool :=
  if !matchBloomFilterAnyTokenSet prims bs ch tokenSets then resetBits bm
  else visitValues bs ch bm (fun v => values.contains v)

/-- The dict-reduction loop shared by the `matchValuesDictBy*` functions:
collect `byte(i)` for every dictionary entry the predicate accepts. -/
def dictEncodedValues (pred : String → Bool) (dictValues : List String) : List Nat :=
  dictValues.enum.filterMap (fun p => if pred p.2 then some (p.1 % 256) else none)

/-- matchEncodedValuesDict: nothing in the dict matches clears all; otherwise
scan the one-byte-per-row index array for membership (a wrong-width dict
value aborts in the source; the model rejects the row). -/
def matchEncodedValuesDict (bs : BlockSearch) (ch : ColumnHeader) (bm : List Bool)
    (encodedValues : List Nat) : List Bool :=
  if encodedValues.length == 0 then resetBits bm
  else visitValues bs ch bm (fun v =>
    if v.data.length ≠ 1 then false
    else encodedValues.contains (charByte (v.data.headD ' ')))

/-- matchTimestampISO8601ByLenRange: every timestamp renders at the fixed
ISO8601 length, so the whole block matches or nothing does.
(`iso8601Timestamp` is the reference layout string of length 24, not under
src/; modelled from the spec's ISO8601 rendering.) -/
def matchTimestampISO8601ByLenRange (bm : List Bool) (minLen maxLen : Nat) : List Bool :=
  if minLen > 24 || maxLen < 24 then resetBits bm else bm

/-- matchTimestampISO8601ByStringRange: guard against ranges disjoint from
decimal-digit-led renderings, then scan rendered values. -/
def matchTimestampISO8601ByStringRange (prims : Prims) (bs : BlockSearch)
    (ch : ColumnHeader) (bm : List Bool) (minValue maxValue : String) : List Bool :=
  if goStringLt "9".data minValue.data || goStringLt maxValue.data "0".data then resetBits bm
  else visitValues bs ch bm (fun v =>
    matchStringRange (prims.toTimestampISO8601String v) minValue maxValue)

/-- matchTimestampISO8601ByRegexp: scan rendered values. -/
def matchTimestampISO8601ByRegexp (prims : Prims) (bs : BlockSearch) (ch : ColumnHeader)
    (bm : List Bool) (re : String → Bool) : List Bool :=
  visitValues bs ch bm (fun v => re (prims.toTimestampISO8601String v))

/-- matchTimestampISO8601ByPrefix: empty prefix matches all; bloom-gate, then
prefix-match rendered values. -/
def matchTimestampISO8601ByPrefix (prims : Prims) (bs : BlockSearch) (ch : ColumnHeader)
    (bm : List Bool) (pfx : String) (tokens : List String) : List Bool :=
  if pfx == "" then bm
  else if !matchBloomFilterAllTokens prims bs ch tokens then resetBits bm
  else visitValues bs ch bm (fun v => matchPrefix (prims.toTimestampISO8601String v) pfx)

/-- matchTimestampISO8601ByExactValue: parse the literal; out-of-range or
unparsable literals match nothing, else exact binary scan. -/
def matchTimestampISO8601ByExactValue (prims : Prims) (bs : BlockSearch) (ch : ColumnHeader)
    (bm : List Bool) (value : String) (tokens : List String) : List Bool :=
  match prims.tryParseTimestampISO8601 value with
  | none => resetBits bm
  | some n =>
    if n < ch.minValue || n > ch.maxValue then resetBits bm
    else matchBinaryValue prims bs ch bm (bytesToString (marshalUint64Bytes n)) tokens

/-- matchTimestampISO8601ByPhrase: a fully-parsing phrase uses the exact fast
path; otherwise bloom-gate and scan rendered values. -/
def matchTimestampISO8601ByPhrase (prims : Prims) (bs : BlockSearch) (ch : ColumnHeader)
    (bm : List Bool) (phrase : String) (tokens : List String) : List Bool :=
  if (prims.tryParseTimestampISO8601 phrase).isSome then
    matchTimestampISO8601ByExactValue prims bs ch bm phrase tokens
  else if !matchBloomFilterAllTokens prims bs ch tokens then resetBits bm
  else visitValues bs ch bm (fun v => matchPhrase (prims.toTimestampISO8601String v) phrase)

/-- matchIPv4ByStringRange. -/
def matchIPv4ByStringRange (prims : Prims) (bs : BlockSearch) (ch : ColumnHeader)
    (bm : List Bool) (minValue maxValue : String) : List Bool :=
  if goStringLt "9".data minValue.data || goStringLt maxValue.data "0".data then resetBits bm
  else visitValues bs ch bm (fun v =>
    matchStringRange (prims.toIPv4String v) minValue maxValue)

/-- matchIPv4ByLenRange: dotted-quad renderings are 7 to 15 chars. -/
def matchIPv4ByLenRange (prims : Prims) (bs : BlockSearch) (ch : ColumnHeader)
    (bm : List Bool) (minLen maxLen : Nat) : List Bool :=
  if minLen > ("255.255.255.255" : String).data.length ||
      maxLen < ("0.0.0.0" : String).data.length then resetBits bm
  else visitValues bs ch bm (fun v => matchLenRange (prims.toIPv4String v) minLen maxLen)

/-- matchIPv4ByRange: header min/max bound check, then per-row 32-bit range
test (a wrong-width binary value aborts in the source; the model rejects). -/
def matchIPv4ByRange (bs : BlockSearch) (ch : ColumnHeader) (bm : List Bool)
    (minValue maxValue : Nat) : List Bool :=
  if ch.minValue > maxValue || ch.maxValue < minValue then resetBits bm
  else visitValues bs ch bm (fun v =>
    if v.data.length ≠ 4 then false
    else
      let n := unmarshalUint32Bytes (stringBytes v)
      decide (n ≥ minValue) && decide (n ≤ maxValue))

/-- matchIPv4ByRegexp. -/
def matchIPv4ByRegexp (prims : Prims) (bs : BlockSearch) (ch : ColumnHeader)
    (bm : List Bool) (re : String → Bool) : List Bool :=
  visitValues bs ch bm (fun v => re (prims.toIPv4String v))

/-- matchIPv4ByPrefix. -/
def matchIPv4ByPrefix (prims : Prims) (bs : BlockSearch) (ch : ColumnHeader)
    (bm : List Bool) (pfx : String) (tokens : List String) : List Bool :=
  if pfx == "" then bm
  else if !matchBloomFilterAllTokens prims bs ch tokens then resetBits bm
  else visitValues bs ch bm (fun v => matchPrefix (prims.toIPv4String v) pfx)

/-- matchIPv4ByExactValue. -/
def matchIPv4ByExactValue (prims : Prims) (bs : BlockSearch) (ch : ColumnHeader)
    (bm : List Bool) (value : String) (tokens : List String) : List Bool :=
  match tryParseIPv4 value with
  | none => resetBits bm
  | some n =>
    if n < ch.minValue || n > ch.maxValue then resetBits bm
    else matchBinaryValue prims bs ch bm (bytesToString (marshalUint32Bytes n)) tokens

/-- matchIPv4ByPhrase: a full address uses the exact fast path, else
bloom-gate and scan rendered values. -/
def matchIPv4ByPhrase (prims : Prims) (bs : BlockSearch) (ch : ColumnHeader)
    (bm : List Bool) (phrase : String) (tokens : List String) : List Bool :=
  if (tryParseIPv4 phrase).isSome then matchIPv4ByExactValue prims bs ch bm phrase tokens
  else if !matchBloomFilterAllTokens prims bs ch tokens then resetBits bm
  else visitValues bs ch bm (fun v => matchPhrase (prims.toIPv4String v) phrase)

/-- matchFloat64ByStringRange: the literal guard bounds (`"9"`/`"+"`) are
preserved as literal behaviour. -/
def matchFloat64ByStringRange (prims : Prims) (bs : BlockSearch) (ch : ColumnHeader)
    (bm : List Bool) (minValue maxValue : String) : List Bool :=
  if goStringLt "9".data minValue.data || goStringLt maxValue.data "+".data then resetBits bm
  else visitValues bs ch bm (fun v =>
    matchStringRange (prims.toFloat64String v) minValue maxValue)

/-- matchFloat64ByLenRange. -/
def matchFloat64ByLenRange (prims : Prims) (bs : BlockSearch) (ch : ColumnHeader)
    (bm : List Bool) (minLen maxLen : Nat) : List Bool :=
  if minLen > 24 || maxLen == 0 then resetBits bm
  else visitValues bs ch bm (fun v => matchLenRange (prims.toFloat64String v) minLen maxLen)

/-- matchFloat64ByRange: header bound check on the bit-reinterpreted min/max,
then per-row float comparison. -/
def matchFloat64ByRange (prims : Prims) (bs : BlockSearch) (ch : ColumnHeader)
    (bm : List Bool) (minValue maxValue : Rat) : List Bool :=
  if minValue > prims.float64frombits ch.maxValue ||
      maxValue < prims.float64frombits ch.minValue then resetBits bm
  else visitValues bs ch bm (fun v =>
    if v.data.length ≠ 8 then false
    else
      let f := prims.float64frombits (unmarshalUint64Bytes (stringBytes v))
      decide (f ≥ minValue) && decide (f ≤ maxValue))

/-- matchFloat64ByRegexp. -/
def matchFloat64ByRegexp (prims : Prims) (bs : BlockSearch) (ch : ColumnHeader)
    (bm : List Bool) (re : String → Bool) : List Bool :=
  visitValues bs ch bm (fun v => re (prims.toFloat64String v))

/-- matchFloat64ByPrefix: empty prefix matches all; a prefix that can start
no float rendering matches nothing; else bloom-gate and scan renderings. -/
def matchFloat64ByPrefix (prims : Prims) (bs : BlockSearch) (ch : ColumnHeader)
    (bm : List Bool) (pfx : String) (tokens : List String) : List Bool :=
  if pfx == "" then bm
  else if (prims.tryParseFloat64 pfx).isNone && pfx != "." && pfx != "+" && pfx != "-" &&
      !pfx.startsWith "e" && !pfx.startsWith "E" then resetBits bm
  else if !matchBloomFilterAllTokens prims bs ch tokens then resetBits bm
  else visitValues bs ch bm (fun v => matchPrefix (prims.toFloat64String v) pfx)

/-- matchFloat64ByExactValue. -/
def matchFloat64ByExactValue (prims : Prims) (bs : BlockSearch) (ch : ColumnHeader)
    (bm : List Bool) (value : String) (tokens : List String) : List Bool :=
  match prims.tryParseFloat64 value with
  | none => resetBits bm
  | some f =>
    if f < prims.float64frombits ch.minValue || f > prims.float64frombits ch.maxValue then
      resetBits bm
    else matchBinaryValue prims bs ch bm
      (bytesToString (marshalUint64Bytes (prims.float64bits f))) tokens

/-- matchFloat64ByPhrase: unparsable non-separator phrases match nothing; a
phrase with an interior dot is a full float and uses the exact fast path;
else bloom-gate and scan renderings. -/
def matchFloat64ByPhrase (prims : Prims) (bs : BlockSearch) (ch : ColumnHeader)
    (bm : List Bool) (phrase : String) (tokens : List String) : List Bool :=
  if (prims.tryParseFloat64 phrase).isNone && phrase != "." && phrase != "+" &&
      phrase != "-" then resetBits bm
  else
    let n := phrase.data.indexOf '.'
    if 0 < n && n < phrase.data.length - 1 then
      matchFloat64ByExactValue prims bs ch bm phrase tokens
    else if !matchBloomFilterAllTokens prims bs ch tokens then resetBits bm
    else visitValues bs ch bm (fun v => matchPhrase (prims.toFloat64String v) phrase)

/-- matchValuesDictByIPv4Range. -/
def matchValuesDictByIPv4Range (bs : BlockSearch) (ch : ColumnHeader) (bm : List Bool)
    (minValue maxValue : Nat) : List Bool :=
  matchEncodedValuesDict bs ch bm
    (dictEncodedValues (fun v => matchIPv4Range v minValue maxValue) ch.valuesDictValues)

/-- matchValuesDictByStringRange. -/
def matchValuesDictByStringRange (bs : BlockSearch) (ch : ColumnHeader) (bm : List Bool)
    (minValue maxValue : String) : List Bool :=
  matchEncodedValuesDict bs ch bm
    (dictEncodedValues (fun v => matchStringRange v minValue maxValue) ch.valuesDictValues)

/-- matchValuesDictByLenRange. -/
def matchValuesDictByLenRange (bs : BlockSearch) (ch : ColumnHeader) (bm : List Bool)
    (minLen maxLen : Nat) : List Bool :=
  matchEncodedValuesDict bs ch bm
    (dictEncodedValues (fun v => matchLenRange v minLen maxLen) ch.valuesDictValues)

/-- matchValuesDictByRange. -/
def matchValuesDictByRange (prims : Prims) (bs : BlockSearch) (ch : ColumnHeader)
    (bm : List Bool) (minValue maxValue : Rat) : List Bool :=
  matchEncodedValuesDict bs ch bm
    (dictEncodedValues (fun v => matchRange prims v minValue maxValue) ch.valuesDictValues)

/-- matchValuesDictByRegexp. -/
def matchValuesDictByRegexp (bs : BlockSearch) (ch : ColumnHeader) (bm : List Bool)
    (re : String → Bool) : List Bool :=
  matchEncodedValuesDict bs ch bm (dictEncodedValues re ch.valuesDictValues)

/-- matchValuesDictByAnyCasePrefix. -/
def matchValuesDictByAnyCasePrefix (prims : Prims) (bs : BlockSearch) (ch : ColumnHeader)
    (bm : List Bool) (pfxLowercase : String) : List Bool :=
  matchEncodedValuesDict bs ch bm
    (dictEncodedValues (fun v => matchAnyCasePrefix prims v pfxLowercase) ch.valuesDictValues)

/-- matchValuesDictByAnyCasePhrase. -/
def matchValuesDictByAnyCasePhrase (prims : Prims) (bs : BlockSearch) (ch : ColumnHeader)
    (bm : List Bool) (phraseLowercase : String) : List Bool :=
  matchEncodedValuesDict bs ch bm
    (dictEncodedValues (fun v => matchAnyCasePhrase prims v phraseLowercase) ch.valuesDictValues)

/-- matchValuesDictByPrefix. -/
def matchValuesDictByPrefix (bs : BlockSearch) (ch : ColumnHeader) (bm : List Bool)
    (pfx : String) : List Bool :=
  matchEncodedValuesDict bs ch bm
    (dictEncodedValues (fun v => matchPrefix v pfx) ch.valuesDictValues)

/-- matchValuesDictByExactValue. -/
def matchValuesDictByExactValue (bs : BlockSearch) (ch : ColumnHeader) (bm : List Bool)
    (value : String) : List Bool :=
  matchEncodedValuesDict bs ch bm
    (dictEncodedValues (fun v => v == value) ch.valuesDictValues)

/-- matchValuesDictByAnyValue. -/
def matchValuesDictByAnyValue (bs : BlockSearch) (ch : ColumnHeader) (bm : List Bool)
    (values : List String) : List Bool :=
  matchEncodedValuesDict bs ch bm
    (dictEncodedValues (fun v => values.contains v) ch.valuesDictValues)

/-- matchValuesDictByPhrase. -/
def matchValuesDictByPhrase (bs : BlockSearch) (ch : ColumnHeader) (bm : List Bool)
    (phrase : String) : List Bool :=
  matchEncodedValuesDict bs ch bm
    (dictEncodedValues (fun v => matchPhrase v phrase) ch.valuesDictValues)

/-- matchStringByIPv4Range. -/
def matchStringByIPv4Range (bs : BlockSearch) (ch : ColumnHeader) (bm : List Bool)
    (minValue maxValue : Nat) : List Bool :=
  visitValues bs ch bm (fun v => matchIPv4Range v minValue maxValue)

/-- matchStringByStringRange. -/
def matchStringByStringRange (bs : BlockSearch) (ch : ColumnHeader) (bm : List Bool)
    (minValue maxValue : String) : List Bool :=
  visitValues bs ch bm (fun v => matchStringRange v minValue maxValue)

/-- matchStringByLenRange. -/
def matchStringByLenRange (bs : BlockSearch) (ch : ColumnHeader) (bm : List Bool)
    (minLen maxLen : Nat) : List Bool :=
  visitValues bs ch bm (fun v => matchLenRange v minLen maxLen)

/-- matchStringByRange. -/
def matchStringByRange (prims : Prims) (bs : BlockSearch) (ch : ColumnHeader)
    (bm : List Bool) (minValue maxValue : Rat) : List Bool :=
  visitValues bs ch bm (fun v => matchRange prims v minValue maxValue)

/-- matchStringByRegexp. -/
def matchStringByRegexp (bs : BlockSearch) (ch : ColumnHeader) (bm : List Bool)
    (re : String → Bool) : List Bool :=
  visitValues bs ch bm re

/-- matchStringByAnyCasePrefix. -/
def matchStringByAnyCasePrefix (prims : Prims) (bs : BlockSearch) (ch : ColumnHeader)
    (bm : List Bool) (pfxLowercase : String) : List Bool :=
  visitValues bs ch bm (fun v => matchAnyCasePrefix prims v pfxLowercase)

/-- matchStringByAnyCasePhrase. -/
def matchStringByAnyCasePhrase (prims : Prims) (bs : BlockSearch) (ch : ColumnHeader)
    (bm : List Bool) (phraseLowercase : String) : List Bool :=
  visitValues bs ch bm (fun v => matchAnyCasePhrase prims v phraseLowercase)

/-- matchStringByPrefix: bloom-gate on the prefix's complete tokens, then scan. -/
def matchStringByPrefix (prims : Prims) (bs : BlockSearch) (ch : ColumnHeader)
    (bm : List Bool) (pfx : String) (tokens : List String) : List Bool :=
  if !matchBloomFilterAllTokens prims bs ch tokens then resetBits bm
  else visitValues bs ch bm (fun v => matchPrefix v pfx)

/-- matchStringByExactValue: bloom-gate, then exact scan. -/
def matchStringByExactValue (prims : Prims) (bs : BlockSearch) (ch : ColumnHeader)
    (bm : List Bool) (value : String) (tokens : List String) : List Bool :=
  if !matchBloomFilterAllTokens prims bs ch tokens then resetBits bm
  else visitValues bs ch bm (fun v => v == value)

/-- matchStringByPhrase: bloom-gate, then phrase scan. -/
def matchStringByPhrase (prims : Prims) (bs : BlockSearch) (ch : ColumnHeader)
    (bm : List Bool) (phrase : String) (tokens : List String) : List Bool :=
  if !matchBloomFilterAllTokens prims bs ch tokens then resetBits bm
  else visitValues bs ch bm (fun v => matchPhrase v phrase)

/-- matchUint8ByStringRange. -/
def matchUint8ByStringRange (bs : BlockSearch) (ch : ColumnHeader) (bm : List Bool)
    (minValue maxValue : String) : List Bool :=
  if goStringLt "9".data minValue.data || goStringLt maxValue.data "0".data then resetBits bm
  else visitValues bs ch bm (fun v => matchStringRange (toUint8String v) minValue maxValue)

/-- matchUint16ByStringRange. -/
def matchUint16ByStringRange (bs : BlockSearch) (ch : ColumnHeader) (bm : List Bool)
    (minValue maxValue : String) : List Bool :=
  if goStringLt "9".data minValue.data || goStringLt maxValue.data "0".data then resetBits bm
  else visitValues bs ch bm (fun v => matchStringRange (toUint16String v) minValue maxValue)

/-- matchUint32ByStringRange. -/
def matchUint32ByStringRange (bs : BlockSearch) (ch : ColumnHeader) (bm : List Bool)
    (minValue maxValue : String) : List Bool :=
  if goStringLt "9".data minValue.data || goStringLt maxValue.data "0".data then resetBits bm
  else visitValues bs ch bm (fun v => matchStringRange (toUint32String v) minValue maxValue)

/-- matchUint64ByStringRange. -/
def matchUint64ByStringRange (bs : BlockSearch) (ch : ColumnHeader) (bm : List Bool)
    (minValue maxValue : String) : List Bool :=
  if goStringLt "9".data minValue.data || goStringLt maxValue.data "0".data then resetBits bm
  else visitValues bs ch bm (fun v => matchStringRange (toUint64String v) minValue maxValue)

/-- matchUint8ByLenRange. -/
def matchUint8ByLenRange (bs : BlockSearch) (ch : ColumnHeader) (bm : List Bool)
    (minLen maxLen : Nat) : List Bool :=
  if !matchMinMaxValueLenCheck ch.minValue ch.maxValue minLen maxLen then resetBits bm
  else visitValues bs ch bm (fun v => matchLenRange (toUint8String v) minLen maxLen)

/-- matchUint16ByLenRange. -/
def matchUint16ByLenRange (bs : BlockSearch) (ch : ColumnHeader) (bm : List Bool)
    (minLen maxLen : Nat) : List Bool :=
  if !matchMinMaxValueLenCheck ch.minValue ch.maxValue minLen maxLen then resetBits bm
  else visitValues bs ch bm (fun v => matchLenRange (toUint16String v) minLen maxLen)

/-- matchUint32ByLenRange. -/
def matchUint32ByLenRange (bs : BlockSearch) (ch : ColumnHeader) (bm : List Bool)
    (minLen maxLen : Nat) : List Bool :=
  if !matchMinMaxValueLenCheck ch.minValue ch.maxValue minLen maxLen then resetBits bm
  else visitValues bs ch bm (fun v => matchLenRange (toUint32String v) minLen maxLen)

/-- matchUint64ByLenRange. -/
def matchUint64ByLenRange (bs : BlockSearch) (ch : ColumnHeader) (bm : List Bool)
    (minLen maxLen : Nat) : List Bool :=
  if !matchMinMaxValueLenCheck ch.minValue ch.maxValue minLen maxLen then resetBits bm
  else visitValues bs ch bm (fun v => matchLenRange (toUint64String v) minLen maxLen)

/-- matchUint8ByRange. -/
def matchUint8ByRange (bs : BlockSearch) (ch : ColumnHeader) (bm : List Bool)
    (minValue maxValue : Rat) : List Bool :=
  let r := toUint64Range minValue maxValue
  if maxValue < 0 || r.1 > ch.maxValue || r.2 < ch.minValue then resetBits bm
  else visitValues bs ch bm (fun v =>
    if v.data.length ≠ 1 then false
    else
      let n := (stringBytes v).getD 0 0
      decide (n ≥ r.1) && decide (n ≤ r.2))

/-- matchUint16ByRange. -/
def matchUint16ByRange (bs : BlockSearch) (ch : ColumnHeader) (bm : List Bool)
    (minValue maxValue : Rat) : List Bool :=
  let r := toUint64Range minValue maxValue
  if maxValue < 0 || r.1 > ch.maxValue || r.2 < ch.minValue then resetBits bm
  else visitValues bs ch bm (fun v =>
    if v.data.length ≠ 2 then false
    else
      let n := unmarshalUint16Bytes (stringBytes v)
      decide (n ≥ r.1) && decide (n ≤ r.2))

/-- matchUint32ByRange. -/
def matchUint32ByRange (bs : BlockSearch) (ch : ColumnHeader) (bm : List Bool)
    (minValue maxValue : Rat) : List Bool :=
  let r := toUint64Range minValue maxValue
  if maxValue < 0 || r.1 > ch.maxValue || r.2 < ch.minValue then resetBits bm
  else visitValues bs ch bm (fun v =>
    if v.data.length ≠ 4 then false
    else
      let n := unmarshalUint32Bytes (stringBytes v)
      decide (n ≥ r.1) && decide (n ≤ r.2))

/-- matchUint64ByRange. -/
def matchUint64ByRange (bs : BlockSearch) (ch : ColumnHeader) (bm : List Bool)
    (minValue maxValue : Rat) : List Bool :=
  let r := toUint64Range minValue maxValue
  if maxValue < 0 || r.1 > ch.maxValue || r.2 < ch.minValue then resetBits bm
  else visitValues bs ch bm (fun v =>
    if v.data.length ≠ 8 then false
    else
      let n := unmarshalUint64Bytes (stringBytes v)
      decide (n ≥ r.1) && decide (n ≤ r.2))

/-- matchUint8ByRegexp. -/
def matchUint8ByRegexp (bs : BlockSearch) (ch : ColumnHeader) (bm : List Bool)
    (re : String → Bool) : List Bool :=
  visitValues bs ch bm (fun v => re (toUint8String v))

/-- matchUint16ByRegexp. -/
def matchUint16ByRegexp (bs : BlockSearch) (ch : ColumnHeader) (bm : List Bool)
    (re : String → Bool) : List Bool :=
  visitValues bs ch bm (fun v => re (toUint16String v))

/-- matchUint32ByRegexp. -/
def matchUint32ByRegexp (bs : BlockSearch) (ch : ColumnHeader) (bm : List Bool)
    (re : String → Bool) : List Bool :=
  visitValues bs ch bm (fun v => re (toUint32String v))

/-- matchUint64ByRegexp. -/
def matchUint64ByRegexp (bs : BlockSearch) (ch : ColumnHeader) (bm : List Bool)
    (re : String → Bool) : List Bool :=
  visitValues bs ch bm (fun v => re (toUint64String v))

/-- matchUint8ByPrefix: empty prefix matches all; a non-numeric or too-large
prefix matches nothing; else scan decimal renderings. -/
def matchUint8ByPrefix (bs : BlockSearch) (ch : ColumnHeader) (bm : List Bool)
    (pfx : String) : List Bool :=
  if pfx == "" then bm
  else
    match tryParseUint64 pfx with
    | none => resetBits bm
    | some n =>
      if n > ch.maxValue then resetBits bm
      else visitValues bs ch bm (fun v => matchPrefix (toUint8String v) pfx)

/-- matchUint16ByPrefix. -/
def matchUint16ByPrefix (bs : BlockSearch) (ch : ColumnHeader) (bm : List Bool)
    (pfx : String) : List Bool :=
  if pfx == "" then bm
  else
    match tryParseUint64 pfx with
    | none => resetBits bm
    | some n =>
      if n > ch.maxValue then resetBits bm
      else visitValues bs ch bm (fun v => matchPrefix (toUint16String v) pfx)

/-- matchUint32ByPrefix. -/
def matchUint32ByPrefix (bs : BlockSearch) (ch : ColumnHeader) (bm : List Bool)
    (pfx : String) : List Bool :=
  if pfx == "" then bm
  else
    match tryParseUint64 pfx with
    | none => resetBits bm
    | some n =>
      if n > ch.maxValue then resetBits bm
      else visitValues bs ch bm (fun v => matchPrefix (toUint32String v) pfx)

/-- matchUint64ByPrefix. -/
def matchUint64ByPrefix (bs : BlockSearch) (ch : ColumnHeader) (bm : List Bool)
    (pfx : String) : List Bool :=
  if pfx == "" then bm
  else
    match tryParseUint64 pfx with
    | none => resetBits bm
    | some n =>
      if n > ch.maxValue then resetBits bm
      else visitValues bs ch bm (fun v => matchPrefix (toUint64String v) pfx)

/-- matchUint8ByExactValue: parse, bound-check against the header, then exact
binary scan on the one-byte encoding. -/
def matchUint8ByExactValue (prims : Prims) (bs : BlockSearch) (ch : ColumnHeader)
    (bm : List Bool) (phrase : String) (tokens : List String) : List Bool :=
  match tryParseUint64 phrase with
  | none => resetBits bm
  | some n =>
    if n < ch.minValue || n > ch.maxValue then resetBits bm
    else matchBinaryValue prims bs ch bm (bytesToString [n]) tokens

/-- matchUint16ByExactValue. -/
def matchUint16ByExactValue (prims : Prims) (bs : BlockSearch) (ch : ColumnHeader)
    (bm : List Bool) (phrase : String) (tokens : List String) : List Bool :=
  match tryParseUint64 phrase with
  | none => resetBits bm
  | some n =>
    if n < ch.minValue || n > ch.maxValue then resetBits bm
    else matchBinaryValue prims bs ch bm (bytesToString (marshalUint16Bytes n)) tokens

/-- matchUint32ByExactValue. -/
def matchUint32ByExactValue (prims : Prims) (bs : BlockSearch) (ch : ColumnHeader)
    (bm : List Bool) (phrase : String) (tokens : List String) : List Bool :=
  match tryParseUint64 phrase with
  | none => resetBits bm
  | some n =>
    if n < ch.minValue || n > ch.maxValue then resetBits bm
    else matchBinaryValue prims bs ch bm (bytesToString (marshalUint32Bytes n)) tokens

/-- matchUint64ByExactValue. -/
def matchUint64ByExactValue (prims : Prims) (bs : BlockSearch) (ch : ColumnHeader)
    (bm : List Bool) (phrase : String) (tokens : List String) : List Bool :=
  match tryParseUint64 phrase with
  | none => resetBits bm
  | some n =>
    if n < ch.minValue || n > ch.maxValue then resetBits bm
    else matchBinaryValue prims bs ch bm (bytesToString (marshalUint64Bytes n)) tokens

/-- streamFilter: the structured stream sub-query abstracted to its emptiness
flag and its resolved stream-identifier set (the one-time `indexdb` lookup is
an external collaborator). -/
structure StreamFilterArgs where
  isEmptyF : Bool
  streamIDs : Nat → Bool

/-- streamFilter.apply: an empty sub-query restricts nothing; otherwise the
block's single stream identifier must belong to the resolved set. -/
def streamFilterApply (sf : StreamFilterArgs) (bs : BlockSearch) (bm : List Bool) :
    List Bool :=
  if sf.isEmptyF then bm
  else if !sf.streamIDs bs.blockStreamID then resetBits bm
  else bm

/-- exactFilter.apply. -/
def exactFilterApply (prims : Prims) (fieldName value : String) (bs : BlockSearch)
    (bm : List Bool) : List Bool :=
  let v := bs.getConstColumnValue fieldName
  if v ≠ "" then
    if value ≠ v then resetBits bm else bm
  else
    match bs.getColumnHeader fieldName with
    | none => if value ≠ "" then resetBits bm else bm
    | some ch =>
      let tokens := prims.tokenize value
      match ch.valueType with
      | .string => matchStringByExactValue prims bs ch bm value tokens
      | .dict => matchValuesDictByExactValue bs ch bm value
      | .uint8 => matchUint8ByExactValue prims bs ch bm value tokens
      | .uint16 => matchUint16ByExactValue prims bs ch bm value tokens
      | .uint32 => matchUint32ByExactValue prims bs ch bm value tokens
      | .uint64 => matchUint64ByExactValue prims bs ch bm value tokens
      | .float64 => matchFloat64ByExactValue prims bs ch bm value tokens
      | .ipv4 => matchIPv4ByExactValue prims bs ch bm value tokens
      | .timestampISO8601 => matchTimestampISO8601ByExactValue prims bs ch bm value tokens

/-- inFilter.initStringValues: the literal values as a membership set. -/
def initStringValues (values : List String) : List String := values

/-- inFilter.initUint8Values: the literals that parse as uint8, each as its
one-byte binary encoding. -/
def initUint8Values (values : List String) : List String :=
  values.filterMap (fun v =>
    match tryParseUint64 v with
    | none => none
    | some n => if n ≥ 2 ^ 8 then none else some (bytesToString [n]))

/-- inFilter.initUint16Values. -/
def initUint16Values (values : List String) : List String :=
  values.filterMap (fun v =>
    match tryParseUint64 v with
    | none => none
    | some n => if n ≥ 2 ^ 16 then none else some (bytesToString (marshalUint16Bytes n)))

/-- inFilter.initUint32Values. -/
def initUint32Values (values : List String) : List String :=
  values.filterMap (fun v =>
    match tryParseUint64 v with
    | none => none
    | some n => if n ≥ 2 ^ 32 then none else some (bytesToString (marshalUint32Bytes n)))

/-- inFilter.initUint64Values. -/
def initUint64Values (values : List String) : List String :=
  values.filterMap (fun v =>
    match tryParseUint64 v with
    | none => none
    | some n => some (bytesToString (marshalUint64Bytes n)))

/-- inFilter.initFloat64Values. -/
def initFloat64Values (prims : Prims) (values : List String) : List String :=
  values.filterMap (fun v =>
    match prims.tryParseFloat64 v with
    | none => none
    | some f => some (bytesToString (marshalUint64Bytes (prims.float64bits f))))

/-- inFilter.initIPv4Values. -/
def initIPv4Values (values : List String) : List String :=
  values.filterMap (fun v =>
    match tryParseIPv4 v with
    | none => none
    | some n => some (bytesToString (marshalUint32Bytes n)))

/-- inFilter.initTimestampISO8601Values. -/
def initTimestampISO8601Values (prims : Prims) (values : List String) : List String :=
  values.filterMap (fun v =>
    match prims.tryParseTimestampISO8601 v with
    | none => none
    | some n => some (bytesToString (marshalUint64Bytes n)))

/-- inFilter.initTokenSets: one token set per value, stopping early after a
value whose token count exceeds the cap (the cap on the number of values is a
capacity hint only). -/
def initTokenSets (tokenize : String → List String) : List String → List (List String)
  | [] => []
  | v :: rest =>
    let tokens := tokenize v
    if tokens.length > maxTokenSetsToInit then [tokens]
    else tokens :: initTokenSets tokenize rest

/-- inFilter.apply. -/
def inFilterApply (prims : Prims) (fieldName : String) (values : List String)
    (bs : BlockSearch) (bm : List Bool) : List Bool :=
  if values.length == 0 then resetBits bm
  else
    let v := bs.getConstColumnValue fieldName
    if v ≠ "" then
      if !(initStringValues values).contains v then resetBits bm else bm
    else
      match bs.getColumnHeader fieldName with
      | none => if !(initStringValues values).contains "" then resetBits bm else bm
      | some ch =>
        let tokenSets := initTokenSets prims.tokenize values
        match ch.valueType with
        | .string => matchAnyValue prims bs ch bm (initStringValues values) tokenSets
        | .dict => matchValuesDictByAnyValue bs ch bm (initStringValues values)
        | .uint8 => matchAnyValue prims bs ch bm (initUint8Values values) tokenSets
        | .uint16 => matchAnyValue prims bs ch bm (initUint16Values values) tokenSets
        | .uint32 => matchAnyValue prims bs ch bm (initUint32Values values) tokenSets
        | .uint64 => matchAnyValue prims bs ch bm (initUint64Values values) tokenSets
        | .float64 => matchAnyValue prims bs ch bm (initFloat64Values prims values) tokenSets
        | .ipv4 => matchAnyValue prims bs ch bm (initIPv4Values values) tokenSets
        | .timestampISO8601 =>
          matchAnyValue prims bs ch bm (initTimestampISO8601Values prims values) tokenSets

/-- ipv4RangeFilter.apply: an inverted range clears everything up front. -/
def ipv4RangeFilterApply (fieldName : String) (minValue maxValue : Nat)
    (bs : BlockSearch) (bm : List Bool) : List Bool :=
  if minValue > maxValue then resetBits bm
  else
    let v := bs.getConstColumnValue fieldName
    if v ≠ "" then
      if !matchIPv4Range v minValue maxValue then resetBits bm else bm
    else
      match bs.getColumnHeader fieldName with
      | none => resetBits bm
      | some ch =>
        match ch.valueType with
        | .string => matchStringByIPv4Range bs ch bm minValue maxValue
        | .dict => matchValuesDictByIPv4Range bs ch bm minValue maxValue
        | .uint8 => resetBits bm
        | .uint16 => resetBits bm
        | .uint32 => resetBits bm
        | .uint64 => resetBits bm
        | .float64 => resetBits bm
        | .ipv4 => matchIPv4ByRange bs ch bm minValue maxValue
        | .timestampISO8601 => resetBits bm

/-- stringRangeFilter.apply. -/
def stringRangeFilterApply (prims : Prims) (fieldName : String)
    (minValue maxValue : String) (bs : BlockSearch) (bm : List Bool) : List Bool :=
  if goStringLt maxValue.data minValue.data then resetBits bm
  else
    let v := bs.getConstColumnValue fieldName
    if v ≠ "" then
      if !matchStringRange v minValue maxValue then resetBits bm else bm
    else
      match bs.getColumnHeader fieldName with
      | none => if !matchStringRange "" minValue maxValue then resetBits bm else bm
      | some ch =>
        match ch.valueType with
        | .string => matchStringByStringRange bs ch bm minValue maxValue
        | .dict => matchValuesDictByStringRange bs ch bm minValue maxValue
        | .uint8 => matchUint8ByStringRange bs ch bm minValue maxValue
        | .uint16 => matchUint16ByStringRange bs ch bm minValue maxValue
        | .uint32 => matchUint32ByStringRange bs ch bm minValue maxValue
        | .uint64 => matchUint64ByStringRange bs ch bm minValue maxValue
        | .float64 => matchFloat64ByStringRange prims bs ch bm minValue maxValue
        | .ipv4 => matchIPv4ByStringRange prims bs ch bm minValue maxValue
        | .timestampISO8601 =>
          matchTimestampISO8601ByStringRange prims bs ch bm minValue maxValue

/-- lenRangeFilter.apply. -/
def lenRangeFilterApply (prims : Prims) (fieldName : String) (minLen maxLen : Nat)
    (bs : BlockSearch) (bm : List Bool) : List Bool :=
  if minLen > maxLen then resetBits bm
  else
    let v := bs.getConstColumnValue fieldName
    if v ≠ "" then
      if !matchLenRange v minLen maxLen then resetBits bm else bm
    else
      match bs.getColumnHeader fieldName with
      | none => if !matchLenRange "" minLen maxLen then resetBits bm else bm
      | some ch =>
        match ch.valueType with
        | .string => matchStringByLenRange bs ch bm minLen maxLen
        | .dict => matchValuesDictByLenRange bs ch bm minLen maxLen
        | .uint8 => matchUint8ByLenRange bs ch bm minLen maxLen
        | .uint16 => matchUint16ByLenRange bs ch bm minLen maxLen
        | .uint32 => matchUint32ByLenRange bs ch bm minLen maxLen
        | .uint64 => matchUint64ByLenRange bs ch bm minLen maxLen
        | .float64 => matchFloat64ByLenRange prims bs ch bm minLen maxLen
        | .ipv4 => matchIPv4ByLenRange prims bs ch bm minLen maxLen
        | .timestampISO8601 => matchTimestampISO8601ByLenRange bm minLen maxLen

/-- rangeFilter.apply (float64 bounds modelled as rationals). -/
def rangeFilterApply (prims : Prims) (fieldName : String) (minValue maxValue : Rat)
    (bs : BlockSearch) (bm : List Bool) : List Bool :=
  if minValue > maxValue then resetBits bm
  else
    let v := bs.getConstColumnValue fieldName
    if v ≠ "" then
      if !matchRange prims v minValue maxValue then resetBits bm else bm
    else
      match bs.getColumnHeader fieldName with
      | none => resetBits bm
      | some ch =>
        match ch.valueType with
        | .string => matchStringByRange prims bs ch bm minValue maxValue
        | .dict => matchValuesDictByRange prims bs ch bm minValue maxValue
        | .uint8 => matchUint8ByRange bs ch bm minValue maxValue
        | .uint16 => matchUint16ByRange bs ch bm minValue maxValue
        | .uint32 => matchUint32ByRange bs ch bm minValue maxValue
        | .uint64 => matchUint64ByRange bs ch bm minValue maxValue
        | .float64 => matchFloat64ByRange prims bs ch bm minValue maxValue
        | .ipv4 => resetBits bm
        | .timestampISO8601 => resetBits bm

/-- regexpFilter.apply (the compiled regexp abstracted as its match
predicate). -/
def regexpFilterApply (prims : Prims) (fieldName : String) (re : String → Bool)
    (bs : BlockSearch) (bm : List Bool) : List Bool :=
  let v := bs.getConstColumnValue fieldName
  if v ≠ "" then
    if !re v then resetBits bm else bm
  else
    match bs.getColumnHeader fieldName with
    | none => if !re "" then resetBits bm else bm
    | some ch =>
      match ch.valueType with
      | .string => matchStringByRegexp bs ch bm re
      | .dict => matchValuesDictByRegexp bs ch bm re
      | .uint8 => matchUint8ByRegexp bs ch bm re
      | .uint16 => matchUint16ByRegexp bs ch bm re
      | .uint32 => matchUint32ByRegexp bs ch bm re
      | .uint64 => matchUint64ByRegexp bs ch bm re
      | .float64 => matchFloat64ByRegexp prims bs ch bm re
      | .ipv4 => matchIPv4ByRegexp prims bs ch bm re
      | .timestampISO8601 => matchTimestampISO8601ByRegexp prims bs ch bm re

/-- anyCasePrefixFilter.apply. -/
def anyCasePrefixFilterApply (prims : Prims) (fieldName pfx : String)
    (bs : BlockSearch) (bm : List Bool) : List Bool :=
  let pfxLowercase := prims.toLower pfx
  let v := bs.getConstColumnValue fieldName
  if v ≠ "" then
    if !matchAnyCasePrefix prims v pfxLowercase then resetBits bm else bm
  else
    match bs.getColumnHeader fieldName with
    | none => resetBits bm
    | some ch =>
      let tokens := getTokensSkipLast prims.tokenize pfx
      match ch.valueType with
      | .string => matchStringByAnyCasePrefix prims bs ch bm pfxLowercase
      | .dict => matchValuesDictByAnyCasePrefix prims bs ch bm pfxLowercase
      | .uint8 => matchUint8ByPrefix bs ch bm pfxLowercase
      | .uint16 => matchUint16ByPrefix bs ch bm pfxLowercase
      | .uint32 => matchUint32ByPrefix bs ch bm pfxLowercase
      | .uint64 => matchUint64ByPrefix bs ch bm pfxLowercase
      | .float64 => matchFloat64ByPrefix prims bs ch bm pfxLowercase tokens
      | .ipv4 => matchIPv4ByPrefix prims bs ch bm pfxLowercase tokens
      | .timestampISO8601 =>
        matchTimestampISO8601ByPrefix prims bs ch bm (prims.toUpper pfx) tokens

/-- prefixFilter.apply. -/
def prefixFilterApply (prims : Prims) (fieldName pfx : String)
    (bs : BlockSearch) (bm : List Bool) : List Bool :=
  let v := bs.getConstColumnValue fieldName
  if v ≠ "" then
    if !matchPrefix v pfx then resetBits bm else bm
  else
    match bs.getColumnHeader fieldName with
    | none => resetBits bm
    | some ch =>
      let tokens := getTokensSkipLast prims.tokenize pfx
      match ch.valueType with
      | .string => matchStringByPrefix prims bs ch bm pfx tokens
      | .dict => matchValuesDictByPrefix bs ch bm pfx
      | .uint8 => matchUint8ByPrefix bs ch bm pfx
      | .uint16 => matchUint16ByPrefix bs ch bm pfx
      | .uint32 => matchUint32ByPrefix bs ch bm pfx
      | .uint64 => matchUint64ByPrefix bs ch bm pfx
      | .float64 => matchFloat64ByPrefix prims bs ch bm pfx tokens
      | .ipv4 => matchIPv4ByPrefix prims bs ch bm pfx tokens
      | .timestampISO8601 => matchTimestampISO8601ByPrefix prims bs ch bm pfx tokens

/-- anyCasePhraseFilter.apply. -/
def anyCasePhraseFilterApply (prims : Prims) (fieldName phrase : String)
    (bs : BlockSearch) (bm : List Bool) : List Bool :=
  let phraseLowercase := prims.toLower phrase
  let v := bs.getConstColumnValue fieldName
  if v ≠ "" then
    if !matchAnyCasePhrase prims v phraseLowercase then resetBits bm else bm
  else
    match bs.getColumnHeader fieldName with
    | none => if phraseLowercase.data.length > 0 then resetBits bm else bm
    | some ch =>
      let tokens := prims.tokenize phrase
      match ch.valueType with
      | .string => matchStringByAnyCasePhrase prims bs ch bm phraseLowercase
      | .dict => matchValuesDictByAnyCasePhrase prims bs ch bm phraseLowercase
      | .uint8 => matchUint8ByExactValue prims bs ch bm phraseLowercase tokens
      | .uint16 => matchUint16ByExactValue prims bs ch bm phraseLowercase tokens
      | .uint32 => matchUint32ByExactValue prims bs ch bm phraseLowercase tokens
      | .uint64 => matchUint64ByExactValue prims bs ch bm phraseLowercase tokens
      | .float64 => matchFloat64ByPhrase prims bs ch bm phraseLowercase tokens
      | .ipv4 => matchIPv4ByPhrase prims bs ch bm phraseLowercase tokens
      | .timestampISO8601 =>
        matchTimestampISO8601ByPhrase prims bs ch bm (prims.toUpper phrase) tokens

/-- phraseFilter.apply. -/
def phraseFilterApply (prims : Prims) (fieldName phrase : String)
    (bs : BlockSearch) (bm : List Bool) : List Bool :=
  let v := bs.getConstColumnValue fieldName
  if v ≠ "" then
    if !matchPhrase v phrase then resetBits bm else bm
  else
    match bs.getColumnHeader fieldName with
    | none => if phrase.data.length > 0 then resetBits bm else bm
    | some ch =>
      let tokens := prims.tokenize phrase
      match ch.valueType with
      | .string => matchStringByPhrase prims bs ch bm phrase tokens
      | .dict => matchValuesDictByPhrase bs ch bm phrase
      | .uint8 => matchUint8ByExactValue prims bs ch bm phrase tokens
      | .uint16 => matchUint16ByExactValue prims bs ch bm phrase tokens
      | .uint32 => matchUint32ByExactValue prims bs ch bm phrase tokens
      | .uint64 => matchUint64ByExactValue prims bs ch bm phrase tokens
      | .float64 => matchFloat64ByPhrase prims bs ch bm phrase tokens
      | .ipv4 => matchIPv4ByPhrase prims bs ch bm phrase tokens
      | .timestampISO8601 => matchTimestampISO8601ByPhrase prims bs ch bm phrase tokens

/-- The closed type of filter variants (the `filter` interface's
implementations). -/
inductive Filter where
  | streamFilter (sf : StreamFilterArgs)
  | exactFilter (fieldName value : String)
  | inFilter (fieldName : String) (values : List String)
  | ipv4RangeFilter (fieldName : String) (minValue maxValue : Nat)
  | stringRangeFilter (fieldName minValue maxValue : String)
  | lenRangeFilter (fieldName : String) (minLen maxLen : Nat)
  | rangeFilter (fieldName : String) (minValue maxValue : Rat)
  | regexpFilter (fieldName : String) (re : String → Bool)
  | anyCasePrefixFilter (fieldName pfx : String)
  | prefixFilter (fieldName pfx : String)
  | anyCasePhraseFilter (fieldName phrase : String)
  | phraseFilter (fieldName phrase : String)

/-- The `apply(bs, bm)` dispatch over all filter variants. -/
def applyFilter (prims : Prims) (f : Filter) (bs : BlockSearch) (bm : List Bool) :
    List Bool :=
  match f with
  | .streamFilter sf => streamFilterApply sf bs bm
  | .exactFilter fieldName value => exactFilterApply prims fieldName value bs bm
  | .inFilter fieldName values => inFilterApply prims fieldName values bs bm
  | .ipv4RangeFilter fieldName mn mx => ipv4RangeFilterApply fieldName mn mx bs bm
  | .stringRangeFilter fieldName mn mx => stringRangeFilterApply prims fieldName mn mx bs bm
  | .lenRangeFilter fieldName mn mx => lenRangeFilterApply prims fieldName mn mx bs bm
  | .rangeFilter fieldName mn mx => rangeFilterApply prims fieldName mn mx bs bm
  | .regexpFilter fieldName re => regexpFilterApply prims fieldName re bs bm
  | .anyCasePrefixFilter fieldName pfx => anyCasePrefixFilterApply prims fieldName pfx bs bm
  | .prefixFilter fieldName pfx => prefixFilterApply prims fieldName pfx bs bm
  | .anyCasePhraseFilter fieldName phrase =>
    anyCasePhraseFilterApply prims fieldName phrase bs bm
  | .phraseFilter fieldName phrase => phraseFilterApply prims fieldName phrase bs bm

/-- A trivial instantiation of the external primitives, used to evaluate the
theorems below on concrete inputs. -/
def trivPrims : Prims where
  hashStr := fun s => s.data.length
  hashLE64 := fun n => n + 1
  tokenize := fun s => [s]
  toLower := id
  toUpper := id
  tryParseFloat64 := fun _ => none
  tryParseTimestampISO8601 := fun _ => none
  float64frombits := fun _ => 0
  float64bits := fun _ => 0
  toFloat64String := fun _ => ""
  toIPv4String := fun _ => ""
  toTimestampISO8601String := fun _ => ""

/-- A block search context over a block with no columns, used to evaluate the
theorems below on concrete inputs. -/
def emptyBlockSearch : BlockSearch where
  getConstColumnValue := fun _ => ""
  getColumnHeader := fun _ => none
  getValuesForColumn := fun _ => []
  getBloomFilterForColumn := fun _ => []
  rowsCount := 0
  blockStreamID := 0

/-- A concrete uint8 column header for evaluating the in-set theorem. -/
def uint8Header : ColumnHeader where
  valueType := .uint8
  minValue := 0
  maxValue := 255
  valuesDictValues := []

/-- A concrete block search context over one uint8 column holding the byte
values 0, 2, 5, 2, used to evaluate the in-set theorem. -/
def uint8BlockSearch : BlockSearch where
  getConstColumnValue := fun _ => ""
  getColumnHeader := fun _ => some uint8Header
  getValuesForColumn := fun _ =>
    [bytesToString [0], bytesToString [2], bytesToString [5], bytesToString [2]]
  getBloomFilterForColumn := fun _ => []
  rowsCount := 4
  blockStreamID := 0

/-- The bitmap-narrowing relation: every set bit of `next` was set in `prev`. -/
def onlyClears (next prev : List Bool) : Prop :=
  ∀ i, next.getD i false = true → prev.getD i false = true

theorem resetBits_getD (bm : List Bool) (i : Nat) : (resetBits bm).getD i false = false := by
  induction bm generalizing i with
  | nil => rfl
  | cons b rest ih =>
    cases i with
    | zero => rfl
    | succ j => exact ih j

theorem bitmapIsZero_getD (bm : List Bool) (h : bitmapIsZero bm = true) (i : Nat) :
    bm.getD i false = false := by
  induction bm generalizing i with
  | nil => rfl
  | cons b rest ih =>
    simp only [bitmapIsZero, List.all_cons, Bool.and_eq_true] at h
    cases i with
    | zero => simpa using h.1
    | succ j =>
      exact ih (by simpa [bitmapIsZero] using h.2) j

theorem forEachSetBitFrom_getD (f : Nat → Bool) (k : Nat) (bm : List Bool) (i : Nat) :
    (forEachSetBitFrom f k bm).getD i false = (bm.getD i false && f (k + i)) := by
  induction bm generalizing k i with
  | nil => simp [forEachSetBitFrom]
  | cons b rest ih =>
    cases i with
    | zero => simp [forEachSetBitFrom]
    | succ j =>
      have hkj : k + 1 + j = k + (j + 1) := by omega
      simpa [forEachSetBitFrom, hkj] using ih (k + 1) j

theorem visitValues_getD (bs : BlockSearch) (ch : ColumnHeader) (bm : List Bool)
    (f : String → Bool) (i : Nat) :
    (visitValues bs ch bm f).getD i false =
      (bm.getD i false && f ((bs.getValuesForColumn ch).getD i "")) := by
  unfold visitValues
  split
  · rename_i h
    rw [bitmapIsZero_getD bm h i]
    simp
  · simpa using forEachSetBitFrom_getD (fun idx => f ((bs.getValuesForColumn ch).getD idx "")) 0 bm i

theorem onlyClears_refl (bm : List Bool) : onlyClears bm bm := fun _ h => h

theorem onlyClears_reset (bm : List Bool) : onlyClears (resetBits bm) bm := by
  intro i h
  rw [resetBits_getD] at h
  exact absurd h (by simp)

theorem onlyClears_visit (bs : BlockSearch) (ch : ColumnHeader) (bm : List Bool)
    (f : String → Bool) : onlyClears (visitValues bs ch bm f) bm := by
  intro i h
  rw [visitValues_getD] at h
  exact (Bool.and_eq_true _ _ ▸ h).1

theorem goStringLt_iff (as bs : List Char) :
    goStringLt as bs = true ↔ List.Lex (· < ·) as bs := by
  induction as generalizing bs with
  | nil =>
    cases bs with
    | nil => simp [goStringLt]
    | cons b bs => simp [goStringLt, List.Lex.nil]
  | cons a as ih =>
    cases bs with
    | nil => simp [goStringLt]
    | cons b bs =>
      show (if a.val < b.val then true
        else if b.val < a.val then false else goStringLt as bs) = true ↔ _
      by_cases hab : a.val < b.val
      · rw [if_pos hab]
        exact iff_of_true rfl (List.Lex.rel (Char.lt_iff_val_lt_val.mpr hab))
      · by_cases hba : b.val < a.val
        · rw [if_neg hab, if_pos hba]
          constructor
          · intro h; cases h
          · intro h
            cases h with
            | rel h' => exact absurd (Char.lt_iff_val_lt_val.mp h') hab
            | cons h' => exact absurd hba (by simp)
        · have hEq : a = b := by
            have h1 : ¬ a < b := fun h => hab (Char.lt_iff_val_lt_val.mp h)
            have h2 : ¬ b < a := fun h => hba (Char.lt_iff_val_lt_val.mp h)
            exact le_antisymm (not_lt.mp h2) (not_lt.mp h1)
          subst hEq
          rw [if_neg hab, if_neg hba, ih bs]
          exact (List.Lex.cons_iff).symm

/-- C6: the string-range predicate is half-open lexicographic: it holds iff
`minValue ≤ s` and `s < maxValue`; in particular `"b"` is in
`range("a","c")` and `"c"` is not. -/
theorem matchStringRange_halfOpen :
    (∀ s minValue maxValue : String,
      matchStringRange s minValue maxValue = true ↔ minValue ≤ s ∧ s < maxValue) ∧
    matchStringRange "b" "a" "c" = true ∧
    matchStringRange "c" "a" "c" = false := by
  have keyLt : ∀ x y : String, x < y ↔ goStringLt x.data y.data = true := fun x y =>
    String.lt_iff_toList_lt.trans (goStringLt_iff x.data y.data).symm
  refine ⟨fun s minValue maxValue => ?_, by decide, by decide⟩
  unfold matchStringRange
  rw [Bool.and_eq_true, Bool.not_eq_true']
  constructor
  · rintro ⟨h1, h2⟩
    refine ⟨?_, (keyLt s maxValue).mpr h2⟩
    show ¬ s < minValue
    intro hlt
    rw [keyLt s minValue] at hlt
    rw [hlt] at h1
    cases h1
  · rintro ⟨h1, h2⟩
    have h1' : ¬ s < minValue := h1
    refine ⟨?_, (keyLt s maxValue).mp h2⟩
    cases hgs : goStringLt s.data minValue.data
    · rfl
    · exact absurd ((keyLt s minValue).mpr hgs) h1'

/-- C5: boundary-aware prefix search: `matchPrefix("foobar","foo")` is true,
`matchPrefix("xfoobar","foo")` is false (the occurrence starts mid-token),
and for every string `s` the empty prefix matches exactly the non-empty
strings. -/
theorem matchPrefix_boundaryAware :
    matchPrefix "foobar" "foo" = true ∧
    matchPrefix "xfoobar" "foo" = false ∧
    ∀ s : String, matchPrefix s "" = decide (s.length > 0) := by
  refine ⟨by decide, by decide, fun s => rfl⟩

/-- C7: the exact filter on a field with no const value and no column header
leaves the bitmap unchanged when its literal is the empty string and clears
the whole bitmap otherwise. -/
theorem exactFilter_absentColumn (prims : Prims) (fieldName value : String)
    (bs : BlockSearch) (bm : List Bool)
    (hconst : bs.getConstColumnValue fieldName = "")
    (hch : bs.getColumnHeader fieldName = none) :
    exactFilterApply prims fieldName value bs bm =
      if value = "" then bm else resetBits bm := by
  unfold exactFilterApply
  rw [hconst, hch]
  simp only [ne_eq, not_true_eq_false, if_false]
  by_cases hv : value = "" <;> simp [hv]

theorem exactFilter_absentColumn_witness :
    exactFilterApply trivPrims "f" "x" emptyBlockSearch [true, true] =
      (if ("x" : String) = "" then [true, true] else resetBits [true, true]) :=
  exactFilter_absentColumn trivPrims "f" "x" emptyBlockSearch [true, true] rfl rfl

/-- C8: an ipv4 range filter whose `minValue` exceeds its `maxValue` clears
the entire bitmap unconditionally (for every block search context and
bitmap, with no dependence on columns or rows). -/
theorem ipv4RangeFilter_invertedRange (fieldName : String) (minValue maxValue : Nat)
    (bs : BlockSearch) (bm : List Bool) (h : minValue > maxValue) :
    ipv4RangeFilterApply fieldName minValue maxValue bs bm = resetBits bm := by
  unfold ipv4RangeFilterApply
  rw [if_pos h]

theorem ipv4RangeFilter_invertedRange_witness :
    ipv4RangeFilterApply "ip" 2 1 emptyBlockSearch [true, false, true] =
      resetBits [true, false, true] :=
  ipv4RangeFilter_invertedRange "ip" 2 1 emptyBlockSearch [true, false, true] (by decide)

/-- C10: an in-set filter with an empty values list clears the entire bitmap,
for every block search context, before any const-column or column-header
lookup. -/
theorem inFilter_emptyValues (prims : Prims) (fieldName : String)
    (bs : BlockSearch) (bm : List Bool) :
    inFilterApply prims fieldName [] bs bm = resetBits bm := by
  unfold inFilterApply
  rfl

theorem marshalUint64Bytes_unmarshal (b0 b1 b2 b3 b4 b5 b6 b7 : Nat) (rest : List Nat)
    (h0 : b0 < 256) (h1 : b1 < 256) (h2 : b2 < 256) (h3 : b3 < 256)
    (h4 : b4 < 256) (h5 : b5 < 256) (h6 : b6 < 256) (h7 : b7 < 256) :
    marshalUint64Bytes
      (unmarshalUint64Bytes (b0 :: b1 :: b2 :: b3 :: b4 :: b5 :: b6 :: b7 :: rest)) =
      [b0, b1, b2, b3, b4, b5, b6, b7] := by
  simp [marshalUint64Bytes, unmarshalUint64Bytes, List.getD]
  omega

theorem bloomFilterMarshal_unmarshalWords (n : Nat) :
    ∀ (dst src : List Nat), (∀ b ∈ src, b < 256) → src.length = 8 * n →
      bloomFilterMarshal dst (unmarshalWords n src) = dst ++ src := by
  induction n with
  | zero =>
    intro dst src _ hlen
    have hsrc : src = [] := List.eq_nil_of_length_eq_zero (by omega)
    subst hsrc
    simp [unmarshalWords, bloomFilterMarshal]
  | succ m ih =>
    intro dst src hb hlen
    obtain ⟨b0, src, rfl⟩ : ∃ b0 t, src = b0 :: t := by
      cases src with
      | nil => simp at hlen
      | cons x t => exact ⟨x, t, rfl⟩
    obtain ⟨b1, src, rfl⟩ : ∃ b1 t, src = b1 :: t := by
      cases src with
      | nil => simp at hlen; omega
      | cons x t => exact ⟨x, t, rfl⟩
    obtain ⟨b2, src, rfl⟩ : ∃ b2 t, src = b2 :: t := by
      cases src with
      | nil => simp at hlen; omega
      | cons x t => exact ⟨x, t, rfl⟩
    obtain ⟨b3, src, rfl⟩ : ∃ b3 t, src = b3 :: t := by
      cases src with
      | nil => simp at hlen; omega
      | cons x t => exact ⟨x, t, rfl⟩
    obtain ⟨b4, src, rfl⟩ : ∃ b4 t, src = b4 :: t := by
      cases src with
      | nil => simp at hlen; omega
      | cons x t => exact ⟨x, t, rfl⟩
    obtain ⟨b5, src, rfl⟩ : ∃ b5 t, src = b5 :: t := by
      cases src with
      | nil => simp at hlen; omega
      | cons x t => exact ⟨x, t, rfl⟩
    obtain ⟨b6, src, rfl⟩ : ∃ b6 t, src = b6 :: t := by
      cases src with
      | nil => simp at hlen; omega
      | cons x t => exact ⟨x, t, rfl⟩
    obtain ⟨b7, rest, rfl⟩ : ∃ b7 t, src = b7 :: t := by
      cases src with
      | nil => simp at hlen; omega
      | cons x t => exact ⟨x, t, rfl⟩
    simp only [List.mem_cons, forall_eq_or_imp] at hb
    have hw : marshalUint64Bytes
        (unmarshalUint64Bytes (b0 :: b1 :: b2 :: b3 :: b4 :: b5 :: b6 :: b7 :: rest)) =
        [b0, b1, b2, b3, b4, b5, b6, b7] :=
      marshalUint64Bytes_unmarshal b0 b1 b2 b3 b4 b5 b6 b7 rest hb.1 hb.2.1 hb.2.2.1
        hb.2.2.2.1 hb.2.2.2.2.1 hb.2.2.2.2.2.1 hb.2.2.2.2.2.2.1 hb.2.2.2.2.2.2.2.1
    have hdrop : (b0 :: b1 :: b2 :: b3 :: b4 :: b5 :: b6 :: b7 :: rest).drop 8 = rest := rfl
    have hrest := ih (dst ++ [b0, b1, b2, b3, b4, b5, b6, b7]) rest
      (fun b hbm => hb.2.2.2.2.2.2.2.2 b hbm)
      (by simp at hlen; omega)
    have step1 : bloomFilterMarshal dst
        (unmarshalWords (m + 1) (b0 :: b1 :: b2 :: b3 :: b4 :: b5 :: b6 :: b7 :: rest)) =
        bloomFilterMarshal (dst ++ [b0, b1, b2, b3, b4, b5, b6, b7]) (unmarshalWords m rest) := by
      simp only [unmarshalWords, hdrop, bloomFilterMarshal, List.foldl_cons, hw]
    rw [step1, hrest]
    simp

/-- C3: `unmarshal` errors exactly when the byte length is not a multiple of
8; on every byte sequence whose length is a multiple of 8 it succeeds and
re-marshalling the resulting filter reproduces the original bytes. -/
theorem bloomFilter_unmarshal_marshal_roundTrip :
    (∀ src : List Nat, bloomFilterUnmarshal src = none ↔ src.length % 8 ≠ 0) ∧
    ∀ src : List Nat, (∀ b ∈ src, b < 256) → src.length % 8 = 0 →
      ∃ bits, bloomFilterUnmarshal src = some bits ∧ bloomFilterMarshal [] bits = src := by
  constructor
  · intro src
    unfold bloomFilterUnmarshal
    split
    · rename_i h; exact iff_of_true rfl h
    · rename_i h; exact iff_of_false (by simp) h
  · intro src hb hmod
    refine ⟨unmarshalWords (src.length / 8) src, ?_, ?_⟩
    · unfold bloomFilterUnmarshal
      rw [if_neg (by omega)]
    · have hlen : src.length = 8 * (src.length / 8) :=
        (Nat.mul_div_cancel' (Nat.dvd_of_mod_eq_zero hmod)).symm
      simpa using bloomFilterMarshal_unmarshalWords (src.length / 8) [] src hb hlen

theorem bloomFilter_unmarshal_marshal_roundTrip_witness :
    ∃ bits, bloomFilterUnmarshal [1, 2, 3, 4, 5, 6, 7, 8, 250, 0, 0, 0, 0, 0, 0, 255] =
        some bits ∧
      bloomFilterMarshal [] bits = [1, 2, 3, 4, 5, 6, 7, 8, 250, 0, 0, 0, 0, 0, 0, 255] :=
  bloomFilter_unmarshal_marshal_roundTrip.2
    [1, 2, 3, 4, 5, 6, 7, 8, 250, 0, 0, 0, 0, 0, 0, 255] (by decide) (by decide)

theorem listIndexOf_sound (pat : List Char) :
    ∀ (s : List Char) (n : Nat), listIndexOf s pat = some n →
      pat.isPrefixOf (s.drop n) = true ∧ n + pat.length ≤ s.length := by
  intro s
  induction s with
  | nil =>
    intro n h
    unfold listIndexOf at h
    split at h
    · rename_i hp
      obtain rfl : (0 : Nat) = n := Option.some.inj h
      refine ⟨hp, ?_⟩
      have := (List.isPrefixOf_iff_prefix.mp hp).length_le
      simpa using this
    · cases h
  | cons c rest ih =>
    intro n h
    unfold listIndexOf at h
    split at h
    · rename_i hp
      obtain rfl : (0 : Nat) = n := Option.some.inj h
      exact ⟨hp, by simpa using (List.isPrefixOf_iff_prefix.mp hp).length_le⟩
    · rw [Option.map_eq_some'] at h
      obtain ⟨m, hm, rfl⟩ := h
      obtain ⟨hpre, hlen⟩ := ih m hm
      refine ⟨by simpa using hpre, ?_⟩
      simp only [List.length_cons]
      omega

theorem getPhrasePosLoop_sound (s phrase : List Char) (st et : Bool) :
    ∀ (fuel pos p : Nat), getPhrasePosLoop s phrase st et fuel pos = some p →
      phrase.isPrefixOf (s.drop p) = true ∧
      (st = true → p = 0 ∨ boundaryBlocks (s.getD (p - 1) ' ') = false) ∧
      (et = true → ¬ (p + phrase.length < s.length) ∨
        boundaryBlocks (s.getD (p + phrase.length) ' ') = false) := by
  intro fuel
  induction fuel with
  | zero => intro pos p h; cases h
  | succ f ih =>
    intro pos p h
    unfold getPhrasePosLoop at h
    split at h
    · cases h
    · rename_i n hidx
      split at h
      · exact ih (pos + n + 1) p h
      · rename_i hc1
        split at h
        · exact ih (pos + n + 1) p h
        · rename_i hc2
          obtain rfl : pos + n = p := Option.some.inj h
          obtain ⟨hpre, _⟩ := listIndexOf_sound phrase (s.drop pos) n hidx
          rw [List.drop_drop] at hpre
          refine ⟨hpre, ?_, ?_⟩
          · intro hst
            rw [hst] at hc1
            simp only [Bool.true_and, Bool.and_eq_true, decide_eq_true_eq, not_and,
              Bool.not_eq_true] at hc1
            by_cases hp0 : pos + n = 0
            · exact Or.inl hp0
            · exact Or.inr (hc1 (by omega))
          · intro het
            rw [het] at hc2
            simp only [Bool.true_and, Bool.and_eq_true, decide_eq_true_eq, not_and,
              Bool.not_eq_true] at hc2
            by_cases hlt : pos + n + phrase.length < s.length
            · exact Or.inr (hc2 hlt)
            · exact Or.inl hlt

theorem getPhrasePos_sound (s phrase : List Char) (p : Nat)
    (h : getPhrasePos s phrase = some p) :
    phrase.isPrefixOf (s.drop p) = true ∧
    (isTokenRune (phrase.headD ' ') = true →
      p = 0 ∨ isTokenRune (s.getD (p - 1) ' ') = false) ∧
    (isTokenRune (phrase.getLastD ' ') = true →
      p + phrase.length = s.length ∨
      isTokenRune (s.getD (p + phrase.length) ' ') = false) := by
  unfold getPhrasePos at h
  split at h
  · rename_i hz
    obtain rfl : (0 : Nat) = p := Option.some.inj h
    obtain rfl : phrase = [] := List.eq_nil_of_length_eq_zero (by simpa using hz)
    refine ⟨by simp, ?_, ?_⟩
    · intro hh; exact absurd hh (by decide)
    · intro hh; exact absurd hh (by decide)
  · split at h
    · cases h
    · rename_i hz hlen
      obtain ⟨hpre, hst, het⟩ :=
        getPhrasePosLoop_sound s phrase (isTokenRune (phrase.headD ' '))
          (isTokenRune (phrase.getLastD ' ')) (s.length + 1) 0 p h
      have hple : p + phrase.length ≤ s.length := by
        have h1 := (List.isPrefixOf_iff_prefix.mp hpre).length_le
        rw [List.length_drop] at h1
        have hz' : phrase.length ≠ 0 := by simpa using hz
        omega
      refine ⟨hpre, ?_, ?_⟩
      · intro hh
        rcases hst hh with h0 | hb
        · exact Or.inl h0
        · refine Or.inr ?_
          rw [List.getD_eq_getElem?_getD]
          simp [boundaryBlocks] at hb
          exact hb.2
      · intro hh
        rcases het hh with hnl | hb
        · exact Or.inl (by omega)
        · refine Or.inr ?_
          rw [List.getD_eq_getElem?_getD]
          simp [boundaryBlocks] at hb
          exact hb.2

/-- C4: matchPhrase is token-boundary-aware containment: the four reference
evaluations hold, and whenever `getPhrasePos` reports a match position, the
phrase occurs there and a token-starting (resp. token-ending) phrase has no
token rune immediately before (resp. after) the occurrence. -/
theorem matchPhrase_tokenBoundary :
    matchPhrase "a quick fox" "quick" = true ∧
    matchPhrase "aquick fox" "quick" = false ∧
    matchPhrase "" "" = true ∧
    matchPhrase "x" "" = false ∧
    ∀ (s phrase : List Char) (p : Nat), getPhrasePos s phrase = some p →
      phrase.isPrefixOf (s.drop p) = true ∧
      (isTokenRune (phrase.headD ' ') = true →
        p = 0 ∨ isTokenRune (s.getD (p - 1) ' ') = false) ∧
      (isTokenRune (phrase.getLastD ' ') = true →
        p + phrase.length = s.length ∨
        isTokenRune (s.getD (p + phrase.length) ' ') = false) :=
  ⟨by decide, by decide, by decide, by decide, fun s phrase p h => getPhrasePos_sound s phrase p h⟩

theorem matchPhrase_tokenBoundary_witness :
    "quick".data.isPrefixOf ("a quick fox".data.drop 2) = true ∧
    (isTokenRune ("quick".data.headD ' ') = true →
      2 = 0 ∨ isTokenRune ("a quick fox".data.getD (2 - 1) ' ') = false) ∧
    (isTokenRune ("quick".data.getLastD ' ') = true →
      2 + "quick".data.length = "a quick fox".data.length ∨
      isTokenRune ("a quick fox".data.getD (2 + "quick".data.length) ' ') = false) :=
  matchPhrase_tokenBoundary.2.2.2.2 "a quick fox".data "quick".data 2 (by decide)

theorem getD_set (l : List Nat) (i j : Nat) (a d : Nat) :
    (l.set i a).getD j d = if i = j ∧ i < l.length then a else l.getD j d := by
  rw [List.getD_eq_getElem?_getD, List.getD_eq_getElem?_getD, List.getElem?_set]
  by_cases hij : i = j
  · subst hij
    by_cases hlt : i < l.length
    · simp [hlt]
    · simp [hlt, List.getElem?_eq_none (Nat.le_of_not_lt hlt)]
  · simp [hij]

theorem and_shiftLeft_eq_zero (w j : Nat) : (w &&& (1 <<< j) == 0) = !w.testBit j := by
  rw [Nat.one_shiftLeft, Nat.and_two_pow]
  cases hw : w.testBit j
  · simp
  · simp [(Nat.two_pow_pos j).ne']

theorem bloomTestBit_eq (m : Nat) (bits : List Nat) (h : Nat) :
    bloomTestBit m bits h = (bits.getD (h % m / 64) 0).testBit (h % m % 64) := by
  simp only [bloomTestBit]
  rw [and_shiftLeft_eq_zero, Bool.not_not]

theorem bloomSetBit_length (m : Nat) (bits : List Nat) (h : Nat) :
    (bloomSetBit m bits h).length = bits.length := by
  simp only [bloomSetBit]
  split
  · exact List.length_set bits _ _
  · rfl

theorem foldl_bloomSetBit_length (m : Nat) (hashes : List Nat) :
    ∀ bits : List Nat, (hashes.foldl (bloomSetBit m) bits).length = bits.length := by
  induction hashes with
  | nil => intro bits; rfl
  | cons x t ih => intro bits; rw [List.foldl_cons, ih, bloomSetBit_length]

theorem bloomTestBit_setBit_mono (m : Nat) (bits : List Nat) (h h' : Nat)
    (ht : bloomTestBit m bits h = true) :
    bloomTestBit m (bloomSetBit m bits h') h = true := by
  rw [bloomTestBit_eq] at ht ⊢
  simp only [bloomSetBit]
  split
  · rw [getD_set]
    by_cases hcase : h' % m / 64 = h % m / 64 ∧ h' % m / 64 < bits.length
    · rw [if_pos hcase, Nat.testBit_lor, hcase.1, ht]
      simp
    · rw [if_neg hcase]
      exact ht
  · exact ht

theorem bloomTestBit_setBit_self (m : Nat) (bits : List Nat) (h : Nat)
    (hm : m = bits.length * 64) (hpos : 0 < bits.length) :
    bloomTestBit m (bloomSetBit m bits h) h = true := by
  have hmpos : 0 < m := by omega
  have hidx : h % m < m := Nat.mod_lt _ hmpos
  have hi : h % m / 64 < bits.length := by omega
  rw [bloomTestBit_eq]
  simp only [bloomSetBit]
  split
  · rw [getD_set, if_pos ⟨rfl, hi⟩, Nat.testBit_lor, Nat.one_shiftLeft,
      Nat.testBit_two_pow_self]
    simp
  · rename_i hcond
    have hfalse : (bits.getD (h % m / 64) 0 &&& (1 <<< (h % m % 64)) == 0) = false :=
      Bool.not_eq_true _ ▸ eq_false_of_ne_true hcond
    rw [and_shiftLeft_eq_zero] at hfalse
    simpa using hfalse

theorem bloomTestBit_foldl_mono (m : Nat) (hs : List Nat) :
    ∀ (bits : List Nat) (h : Nat), bloomTestBit m bits h = true →
      bloomTestBit m (hs.foldl (bloomSetBit m) bits) h = true := by
  induction hs with
  | nil => intro bits h ht; exact ht
  | cons x t ih =>
    intro bits h ht
    exact ih (bloomSetBit m bits x) h (bloomTestBit_setBit_mono m bits h x ht)

theorem bloomTestBit_foldl_mem (m : Nat) (hs : List Nat) :
    ∀ bits : List Nat, m = bits.length * 64 → 0 < bits.length →
      ∀ h ∈ hs, bloomTestBit m (hs.foldl (bloomSetBit m) bits) h = true := by
  induction hs with
  | nil => intro bits _ _ h hh; cases hh
  | cons x t ih =>
    intro bits hm hpos h hh
    rw [List.foldl_cons]
    rcases List.mem_cons.mp hh with rfl | hmem
    · exact bloomTestBit_foldl_mono m t (bloomSetBit m bits h) h
        (bloomTestBit_setBit_self m bits h hm hpos)
    · exact ih (bloomSetBit m bits x)
        (by rw [bloomSetBit_length]; exact hm)
        (by rw [bloomSetBit_length]; exact hpos) h hmem

theorem appendTokensHashes_mem (hashStr : String → Nat) (hashLE64 : Nat → Nat)
    (tokens sub : List String) (hsub : ∀ t ∈ sub, t ∈ tokens) (h : Nat)
    (hh : h ∈ appendTokensHashes hashStr hashLE64 [] sub) :
    h ∈ appendTokensHashes hashStr hashLE64 [] tokens := by
  simp only [appendTokensHashes, List.nil_append, List.mem_flatten, List.mem_map] at hh ⊢
  obtain ⟨l, ⟨t, ht, rfl⟩, hl⟩ := hh
  exact ⟨seedHashes hashLE64 (hashStr t % 2 ^ 64), ⟨t, hsub t ht, rfl⟩, hl⟩

/-- C1: a bloom filter built from a token list via `mustInitTokens` reports
`containsAll = true` on the hashes that `appendTokensHashes` derives from any
subset of those tokens — no false negatives, for every hash function. -/
theorem bloomFilter_noFalseNegatives (hashStr : String → Nat) (hashLE64 : Nat → Nat)
    (tokens sub : List String) (hsub : ∀ t ∈ sub, t ∈ tokens) :
    containsAll (mustInitTokens hashStr hashLE64 tokens)
      (appendTokensHashes hashStr hashLE64 [] sub) = true := by
  cases tokens with
  | nil =>
    have hlen : (mustInitTokens hashStr hashLE64 []).length = 0 := by
      simp only [mustInitTokens, initBloomFilter, foldl_bloomSetBit_length]
      simp [bloomFilterBitsPerItem]
    simp [containsAll, hlen]
  | cons t0 ts =>
    have hwc : 0 < (((t0 :: ts).length * bloomFilterBitsPerItem) + 63) / 64 := by
      have : (t0 :: ts).length = ts.length + 1 := rfl
      simp only [this, bloomFilterBitsPerItem]
      omega
    have hlen0 : (List.replicate
        (((t0 :: ts).length * bloomFilterBitsPerItem + 63) / 64) (0 : Nat)).length =
        (((t0 :: ts).length * bloomFilterBitsPerItem) + 63) / 64 :=
      List.length_replicate _ _
    have hlenB : (mustInitTokens hashStr hashLE64 (t0 :: ts)).length =
        (((t0 :: ts).length * bloomFilterBitsPerItem) + 63) / 64 := by
      simp only [mustInitTokens, initBloomFilter, foldl_bloomSetBit_length]
      exact hlen0
    unfold containsAll
    rw [if_neg (by simp [hlenB, bloomFilterBitsPerItem, List.length_cons]; omega)]
    rw [List.all_eq_true]
    intro h hh
    have hmem := appendTokensHashes_mem hashStr hashLE64 (t0 :: ts) sub hsub h hh
    have hkey := bloomTestBit_foldl_mem
      ((List.replicate (((t0 :: ts).length * bloomFilterBitsPerItem + 63) / 64) (0 : Nat)).length * 64)
      (appendTokensHashes hashStr hashLE64 [] (t0 :: ts))
      (List.replicate (((t0 :: ts).length * bloomFilterBitsPerItem + 63) / 64) (0 : Nat))
      rfl (by rw [hlen0]; exact hwc) h hmem
    have hB : mustInitTokens hashStr hashLE64 (t0 :: ts) =
        (appendTokensHashes hashStr hashLE64 [] (t0 :: ts)).foldl
          (bloomSetBit ((List.replicate
            (((t0 :: ts).length * bloomFilterBitsPerItem + 63) / 64) (0 : Nat)).length * 64))
          (List.replicate (((t0 :: ts).length * bloomFilterBitsPerItem + 63) / 64) (0 : Nat)) := by
      simp only [mustInitTokens, initBloomFilter]
    rw [hB, foldl_bloomSetBit_length, hlen0]
    rw [hlen0] at hkey
    exact hkey

theorem bloomFilter_noFalseNegatives_witness :
    containsAll (mustInitTokens (fun s => s.data.length * 131) (fun n => n * 31 + 7)
        ["foo", "bar"])
      (appendTokensHashes (fun s => s.data.length * 131) (fun n => n * 31 + 7) [] ["bar"]) =
      true :=
  bloomFilter_noFalseNegatives (fun s => s.data.length * 131) (fun n => n * 31 + 7)
    ["foo", "bar"] ["bar"] (by simp)

theorem matchBinaryValue_oc (prims : Prims) (bs : BlockSearch) (ch : ColumnHeader) (bm : List Bool) (binValue : String) (tokens : List String) :
    onlyClears (matchBinaryValue prims bs ch bm binValue tokens) bm := by
  simp only [matchBinaryValue]
  repeat' split
  all_goals first
    | apply onlyClears_reset
    | apply onlyClears_visit
    | apply onlyClears_refl

theorem matchAnyValue_oc (prims : Prims) (bs : BlockSearch) (ch : ColumnHeader) (bm : List Bool) (values : List String) (tokenSets : List (List String)) :
    onlyClears (matchAnyValue prims bs ch bm values tokenSets) bm := by
  simp only [matchAnyValue]
  repeat' split
  all_goals first
    | apply onlyClears_reset
    | apply onlyClears_visit
    | apply onlyClears_refl

theorem matchEncodedValuesDict_oc (bs : BlockSearch) (ch : ColumnHeader) (bm : List Bool) (encodedValues : List Nat) :
    onlyClears (matchEncodedValuesDict bs ch bm encodedValues) bm := by
  simp only [matchEncodedValuesDict]
  repeat' split
  all_goals first
    | apply onlyClears_reset
    | apply onlyClears_visit
    | apply onlyClears_refl

theorem matchTimestampISO8601ByLenRange_oc (bm : List Bool) (minLen maxLen : Nat) :
    onlyClears (matchTimestampISO8601ByLenRange bm minLen maxLen) bm := by
  simp only [matchTimestampISO8601ByLenRange]
  repeat' split
  all_goals first
    | apply onlyClears_reset
    | apply onlyClears_visit
    | apply onlyClears_refl

theorem matchTimestampISO8601ByStringRange_oc (prims : Prims) (bs : BlockSearch) (ch : ColumnHeader) (bm : List Bool) (minValue maxValue : String) :
    onlyClears (matchTimestampISO8601ByStringRange prims bs ch bm minValue maxValue) bm := by
  simp only [matchTimestampISO8601ByStringRange]
  repeat' split
  all_goals first
    | apply onlyClears_reset
    | apply onlyClears_visit
    | apply onlyClears_refl

theorem matchTimestampISO8601ByRegexp_oc (prims : Prims) (bs : BlockSearch) (ch : ColumnHeader) (bm : List Bool) (re : String → Bool) :
    onlyClears (matchTimestampISO8601ByRegexp prims bs ch bm re) bm := by
  simp only [matchTimestampISO8601ByRegexp]
  repeat' split
  all_goals first
    | apply onlyClears_reset
    | apply onlyClears_visit
    | apply onlyClears_refl

theorem matchTimestampISO8601ByPrefix_oc (prims : Prims) (bs : BlockSearch) (ch : ColumnHeader) (bm : List Bool) (pfx : String) (tokens : List String) :
    onlyClears (matchTimestampISO8601ByPrefix prims bs ch bm pfx tokens) bm := by
  simp only [matchTimestampISO8601ByPrefix]
  repeat' split
  all_goals first
    | apply onlyClears_reset
    | apply onlyClears_visit
    | apply onlyClears_refl

theorem matchTimestampISO8601ByExactValue_oc (prims : Prims) (bs : BlockSearch) (ch : ColumnHeader) (bm : List Bool) (value : String) (tokens : List String) :
    onlyClears (matchTimestampISO8601ByExactValue prims bs ch bm value tokens) bm := by
  simp only [matchTimestampISO8601ByExactValue]
  repeat' split
  all_goals first
    | apply onlyClears_reset
    | apply onlyClears_visit
    | apply matchBinaryValue_oc
    | apply onlyClears_refl

theorem matchTimestampISO8601ByPhrase_oc (prims : Prims) (bs : BlockSearch) (ch : ColumnHeader) (bm : List Bool) (phrase : String) (tokens : List String) :
    onlyClears (matchTimestampISO8601ByPhrase prims bs ch bm phrase tokens) bm := by
  simp only [matchTimestampISO8601ByPhrase]
  repeat' split
  all_goals first
    | apply onlyClears_reset
    | apply onlyClears_visit
    | apply matchTimestampISO8601ByExactValue_oc
    | apply onlyClears_refl

theorem matchIPv4ByStringRange_oc (prims : Prims) (bs : BlockSearch) (ch : ColumnHeader) (bm : List Bool) (minValue maxValue : String) :
    onlyClears (matchIPv4ByStringRange prims bs ch bm minValue maxValue) bm := by
  simp only [matchIPv4ByStringRange]
  repeat' split
  all_goals first
    | apply onlyClears_reset
    | apply onlyClears_visit
    | apply onlyClears_refl

theorem matchIPv4ByLenRange_oc (prims : Prims) (bs : BlockSearch) (ch : ColumnHeader) (bm : List Bool) (minLen maxLen : Nat) :
    onlyClears (matchIPv4ByLenRange prims bs ch bm minLen maxLen) bm := by
  simp only [matchIPv4ByLenRange]
  repeat' split
  all_goals first
    | apply onlyClears_reset
    | apply onlyClears_visit
    | apply onlyClears_refl

theorem matchIPv4ByRange_oc (bs : BlockSearch) (ch : ColumnHeader) (bm : List Bool) (minValue maxValue : Nat) :
    onlyClears (matchIPv4ByRange bs ch bm minValue maxValue) bm := by
  simp only [matchIPv4ByRange]
  repeat' split
  all_goals first
    | apply onlyClears_reset
    | apply onlyClears_visit
    | apply onlyClears_refl

theorem matchIPv4ByRegexp_oc (prims : Prims) (bs : BlockSearch) (ch : ColumnHeader) (bm : List Bool) (re : String → Bool) :
    onlyClears (matchIPv4ByRegexp prims bs ch bm re) bm := by
  simp only [matchIPv4ByRegexp]
  repeat' split
  all_goals first
    | apply onlyClears_reset
    | apply onlyClears_visit
    | apply onlyClears_refl

theorem matchIPv4ByPrefix_oc (prims : Prims) (bs : BlockSearch) (ch : ColumnHeader) (bm : List Bool) (pfx : String) (tokens : List String) :
    onlyClears (matchIPv4ByPrefix prims bs ch bm pfx tokens) bm := by
  simp only [matchIPv4ByPrefix]
  repeat' split
  all_goals first
    | apply onlyClears_reset
    | apply onlyClears_visit
    | apply onlyClears_refl

theorem matchIPv4ByExactValue_oc (prims : Prims) (bs : BlockSearch) (ch : ColumnHeader) (bm : List Bool) (value : String) (tokens : List String) :
    onlyClears (matchIPv4ByExactValue prims bs ch bm value tokens) bm := by
  simp only [matchIPv4ByExactValue]
  repeat' split
  all_goals first
    | apply onlyClears_reset
    | apply onlyClears_visit
    | apply matchBinaryValue_oc
    | apply onlyClears_refl

theorem matchIPv4ByPhrase_oc (prims : Prims) (bs : BlockSearch) (ch : ColumnHeader) (bm : List Bool) (phrase : String) (tokens : List String) :
    onlyClears (matchIPv4ByPhrase prims bs ch bm phrase tokens) bm := by
  simp only [matchIPv4ByPhrase]
  repeat' split
  all_goals first
    | apply onlyClears_reset
    | apply onlyClears_visit
    | apply matchIPv4ByExactValue_oc
    | apply onlyClears_refl

theorem matchFloat64ByStringRange_oc (prims : Prims) (bs : BlockSearch) (ch : ColumnHeader) (bm : List Bool) (minValue maxValue : String) :
    onlyClears (matchFloat64ByStringRange prims bs ch bm minValue maxValue) bm := by
  simp only [matchFloat64ByStringRange]
  repeat' split
  all_goals first
    | apply onlyClears_reset
    | apply onlyClears_visit
    | apply onlyClears_refl

theorem matchFloat64ByLenRange_oc (prims : Prims) (bs : BlockSearch) (ch : ColumnHeader) (bm : List Bool) (minLen maxLen : Nat) :
    onlyClears (matchFloat64ByLenRange prims bs ch bm minLen maxLen) bm := by
  simp only [matchFloat64ByLenRange]
  repeat' split
  all_goals first
    | apply onlyClears_reset
    | apply onlyClears_visit
    | apply onlyClears_refl

theorem matchFloat64ByRange_oc (prims : Prims) (bs : BlockSearch) (ch : ColumnHeader) (bm : List Bool) (minValue maxValue : Rat) :
    onlyClears (matchFloat64ByRange prims bs ch bm minValue maxValue) bm := by
  simp only [matchFloat64ByRange]
  repeat' split
  all_goals first
    | apply onlyClears_reset
    | apply onlyClears_visit
    | apply onlyClears_refl

theorem matchFloat64ByRegexp_oc (prims : Prims) (bs : BlockSearch) (ch : ColumnHeader) (bm : List Bool) (re : String → Bool) :
    onlyClears (matchFloat64ByRegexp prims bs ch bm re) bm := by
  simp only [matchFloat64ByRegexp]
  repeat' split
  all_goals first
    | apply onlyClears_reset
    | apply onlyClears_visit
    | apply onlyClears_refl

theorem matchFloat64ByPrefix_oc (prims : Prims) (bs : BlockSearch) (ch : ColumnHeader) (bm : List Bool) (pfx : String) (tokens : List String) :
    onlyClears (matchFloat64ByPrefix prims bs ch bm pfx tokens) bm := by
  simp only [matchFloat64ByPrefix]
  repeat' split
  all_goals first
    | apply onlyClears_reset
    | apply onlyClears_visit
    | apply onlyClears_refl

theorem matchFloat64ByExactValue_oc (prims : Prims) (bs : BlockSearch) (ch : ColumnHeader) (bm : List Bool) (value : String) (tokens : List String) :
    onlyClears (matchFloat64ByExactValue prims bs ch bm value tokens) bm := by
  simp only [matchFloat64ByExactValue]
  repeat' split
  all_goals first
    | apply onlyClears_reset
    | apply onlyClears_visit
    | apply matchBinaryValue_oc
    | apply onlyClears_refl

theorem matchFloat64ByPhrase_oc (prims : Prims) (bs : BlockSearch) (ch : ColumnHeader) (bm : List Bool) (phrase : String) (tokens : List String) :
    onlyClears (matchFloat64ByPhrase prims bs ch bm phrase tokens) bm := by
  simp only [matchFloat64ByPhrase]
  repeat' split
  all_goals first
    | apply onlyClears_reset
    | apply onlyClears_visit
    | apply matchFloat64ByExactValue_oc
    | apply onlyClears_refl

theorem matchValuesDictByIPv4Range_oc (bs : BlockSearch) (ch : ColumnHeader) (bm : List Bool) (minValue maxValue : Nat) :
    onlyClears (matchValuesDictByIPv4Range bs ch bm minValue maxValue) bm := by
  simp only [matchValuesDictByIPv4Range]
  apply matchEncodedValuesDict_oc

theorem matchValuesDictByStringRange_oc (bs : BlockSearch) (ch : ColumnHeader) (bm : List Bool) (minValue maxValue : String) :
    onlyClears (matchValuesDictByStringRange bs ch bm minValue maxValue) bm := by
  simp only [matchValuesDictByStringRange]
  apply matchEncodedValuesDict_oc

theorem matchValuesDictByLenRange_oc (bs : BlockSearch) (ch : ColumnHeader) (bm : List Bool) (minLen maxLen : Nat) :
    onlyClears (matchValuesDictByLenRange bs ch bm minLen maxLen) bm := by
  simp only [matchValuesDictByLenRange]
  apply matchEncodedValuesDict_oc

theorem matchValuesDictByRange_oc (prims : Prims) (bs : BlockSearch) (ch : ColumnHeader) (bm : List Bool) (minValue maxValue : Rat) :
    onlyClears (matchValuesDictByRange prims bs ch bm minValue maxValue) bm := by
  simp only [matchValuesDictByRange]
  apply matchEncodedValuesDict_oc

theorem matchValuesDictByRegexp_oc (bs : BlockSearch) (ch : ColumnHeader) (bm : List Bool) (re : String → Bool) :
    onlyClears (matchValuesDictByRegexp bs ch bm re) bm := by
  simp only [matchValuesDictByRegexp]
  apply matchEncodedValuesDict_oc

theorem matchValuesDictByAnyCasePrefix_oc (prims : Prims) (bs : BlockSearch) (ch : ColumnHeader) (bm : List Bool) (pfxLowercase : String) :
    onlyClears (matchValuesDictByAnyCasePrefix prims bs ch bm pfxLowercase) bm := by
  simp only [matchValuesDictByAnyCasePrefix]
  apply matchEncodedValuesDict_oc

theorem matchValuesDictByAnyCasePhrase_oc (prims : Prims) (bs : BlockSearch) (ch : ColumnHeader) (bm : List Bool) (phraseLowercase : String) :
    onlyClears (matchValuesDictByAnyCasePhrase prims bs ch bm phraseLowercase) bm := by
  simp only [matchValuesDictByAnyCasePhrase]
  apply matchEncodedValuesDict_oc

theorem matchValuesDictByPrefix_oc (bs : BlockSearch) (ch : ColumnHeader) (bm : List Bool) (pfx : String) :
    onlyClears (matchValuesDictByPrefix bs ch bm pfx) bm := by
  simp only [matchValuesDictByPrefix]
  apply matchEncodedValuesDict_oc

theorem matchValuesDictByExactValue_oc (bs : BlockSearch) (ch : ColumnHeader) (bm : List Bool) (value : String) :
    onlyClears (matchValuesDictByExactValue bs ch bm value) bm := by
  simp only [matchValuesDictByExactValue]
  apply matchEncodedValuesDict_oc

theorem matchValuesDictByAnyValue_oc (bs : BlockSearch) (ch : ColumnHeader) (bm : List Bool) (values : List String) :
    onlyClears (matchValuesDictByAnyValue bs ch bm values) bm := by
  simp only [matchValuesDictByAnyValue]
  apply matchEncodedValuesDict_oc

theorem matchValuesDictByPhrase_oc (bs : BlockSearch) (ch : ColumnHeader) (bm : List Bool) (phrase : String) :
    onlyClears (matchValuesDictByPhrase bs ch bm phrase) bm := by
  simp only [matchValuesDictByPhrase]
  apply matchEncodedValuesDict_oc

theorem matchStringByIPv4Range_oc (bs : BlockSearch) (ch : ColumnHeader) (bm : List Bool) (minValue maxValue : Nat) :
    onlyClears (matchStringByIPv4Range bs ch bm minValue maxValue) bm := by
  simp only [matchStringByIPv4Range]
  repeat' split
  all_goals first
    | apply onlyClears_reset
    | apply onlyClears_visit
    | apply onlyClears_refl

theorem matchStringByStringRange_oc (bs : BlockSearch) (ch : ColumnHeader) (bm : List Bool) (minValue maxValue : String) :
    onlyClears (matchStringByStringRange bs ch bm minValue maxValue) bm := by
  simp only [matchStringByStringRange]
  repeat' split
  all_goals first
    | apply onlyClears_reset
    | apply onlyClears_visit
    | apply onlyClears_refl

theorem matchStringByLenRange_oc (bs : BlockSearch) (ch : ColumnHeader) (bm : List Bool) (minLen maxLen : Nat) :
    onlyClears (matchStringByLenRange bs ch bm minLen maxLen) bm := by
  simp only [matchStringByLenRange]
  repeat' split
  all_goals first
    | apply onlyClears_reset
    | apply onlyClears_visit
    | apply onlyClears_refl

theorem matchStringByRange_oc (prims : Prims) (bs : BlockSearch) (ch : ColumnHeader) (bm : List Bool) (minValue maxValue : Rat) :
    onlyClears (matchStringByRange prims bs ch bm minValue maxValue) bm := by
  simp only [matchStringByRange]
  repeat' split
  all_goals first
    | apply onlyClears_reset
    | apply onlyClears_visit
    | apply onlyClears_refl

theorem matchStringByRegexp_oc (bs : BlockSearch) (ch : ColumnHeader) (bm : List Bool) (re : String → Bool) :
    onlyClears (matchStringByRegexp bs ch bm re) bm := by
  simp only [matchStringByRegexp]
  repeat' split
  all_goals first
    | apply onlyClears_reset
    | apply onlyClears_visit
    | apply onlyClears_refl

theorem matchStringByAnyCasePrefix_oc (prims : Prims) (bs : BlockSearch) (ch : ColumnHeader) (bm : List Bool) (pfxLowercase : String) :
    onlyClears (matchStringByAnyCasePrefix prims bs ch bm pfxLowercase) bm := by
  simp only [matchStringByAnyCasePrefix]
  repeat' split
  all_goals first
    | apply onlyClears_reset
    | apply onlyClears_visit
    | apply onlyClears_refl

theorem matchStringByAnyCasePhrase_oc (prims : Prims) (bs : BlockSearch) (ch : ColumnHeader) (bm : List Bool) (phraseLowercase : String) :
    onlyClears (matchStringByAnyCasePhrase prims bs ch bm phraseLowercase) bm := by
  simp only [matchStringByAnyCasePhrase]
  repeat' split
  all_goals first
    | apply onlyClears_reset
    | apply onlyClears_visit
    | apply onlyClears_refl

theorem matchStringByPrefix_oc (prims : Prims) (bs : BlockSearch) (ch : ColumnHeader) (bm : List Bool) (pfx : String) (tokens : List String) :
    onlyClears (matchStringByPrefix prims bs ch bm pfx tokens) bm := by
  simp only [matchStringByPrefix]
  repeat' split
  all_goals first
    | apply onlyClears_reset
    | apply onlyClears_visit
    | apply onlyClears_refl

theorem matchStringByExactValue_oc (prims : Prims) (bs : BlockSearch) (ch : ColumnHeader) (bm : List Bool) (value : String) (tokens : List String) :
    onlyClears (matchStringByExactValue prims bs ch bm value tokens) bm := by
  simp only [matchStringByExactValue]
  repeat' split
  all_goals first
    | apply onlyClears_reset
    | apply onlyClears_visit
    | apply onlyClears_refl

theorem matchStringByPhrase_oc (prims : Prims) (bs : BlockSearch) (ch : ColumnHeader) (bm : List Bool) (phrase : String) (tokens : List String) :
    onlyClears (matchStringByPhrase prims bs ch bm phrase tokens) bm := by
  simp only [matchStringByPhrase]
  repeat' split
  all_goals first
    | apply onlyClears_reset
    | apply onlyClears_visit
    | apply onlyClears_refl

theorem matchUint8ByStringRange_oc (bs : BlockSearch) (ch : ColumnHeader) (bm : List Bool) (minValue maxValue : String) :
    onlyClears (matchUint8ByStringRange bs ch bm minValue maxValue) bm := by
  simp only [matchUint8ByStringRange]
  repeat' split
  all_goals first
    | apply onlyClears_reset
    | apply onlyClears_visit
    | apply onlyClears_refl

theorem matchUint8ByLenRange_oc (bs : BlockSearch) (ch : ColumnHeader) (bm : List Bool) (minLen maxLen : Nat) :
    onlyClears (matchUint8ByLenRange bs ch bm minLen maxLen) bm := by
  simp only [matchUint8ByLenRange]
  repeat' split
  all_goals first
    | apply onlyClears_reset
    | apply onlyClears_visit
    | apply onlyClears_refl

theorem matchUint8ByRange_oc (bs : BlockSearch) (ch : ColumnHeader) (bm : List Bool) (minValue maxValue : Rat) :
    onlyClears (matchUint8ByRange bs ch bm minValue maxValue) bm := by
  simp only [matchUint8ByRange]
  repeat' split
  all_goals first
    | apply onlyClears_reset
    | apply onlyClears_visit
    | apply onlyClears_refl

theorem matchUint8ByRegexp_oc (bs : BlockSearch) (ch : ColumnHeader) (bm : List Bool) (re : String → Bool) :
    onlyClears (matchUint8ByRegexp bs ch bm re) bm := by
  simp only [matchUint8ByRegexp]
  repeat' split
  all_goals first
    | apply onlyClears_reset
    | apply onlyClears_visit
    | apply onlyClears_refl

theorem matchUint8ByPrefix_oc (bs : BlockSearch) (ch : ColumnHeader) (bm : List Bool) (pfx : String) :
    onlyClears (matchUint8ByPrefix bs ch bm pfx) bm := by
  simp only [matchUint8ByPrefix]
  repeat' split
  all_goals first
    | apply onlyClears_reset
    | apply onlyClears_visit
    | apply onlyClears_refl

theorem matchUint8ByExactValue_oc (prims : Prims) (bs : BlockSearch) (ch : ColumnHeader) (bm : List Bool) (phrase : String) (tokens : List String) :
    onlyClears (matchUint8ByExactValue prims bs ch bm phrase tokens) bm := by
  simp only [matchUint8ByExactValue]
  repeat' split
  all_goals first
    | apply onlyClears_reset
    | apply onlyClears_visit
    | apply matchBinaryValue_oc
    | apply onlyClears_refl

theorem matchUint16ByStringRange_oc (bs : BlockSearch) (ch : ColumnHeader) (bm : List Bool) (minValue maxValue : String) :
    onlyClears (matchUint16ByStringRange bs ch bm minValue maxValue) bm := by
  simp only [matchUint16ByStringRange]
  repeat' split
  all_goals first
    | apply onlyClears_reset
    | apply onlyClears_visit
    | apply onlyClears_refl

theorem matchUint16ByLenRange_oc (bs : BlockSearch) (ch : ColumnHeader) (bm : List Bool) (minLen maxLen : Nat) :
    onlyClears (matchUint16ByLenRange bs ch bm minLen maxLen) bm := by
  simp only [matchUint16ByLenRange]
  repeat' split
  all_goals first
    | apply onlyClears_reset
    | apply onlyClears_visit
    | apply onlyClears_refl

theorem matchUint16ByRange_oc (bs : BlockSearch) (ch : ColumnHeader) (bm : List Bool) (minValue maxValue : Rat) :
    onlyClears (matchUint16ByRange bs ch bm minValue maxValue) bm := by
  simp only [matchUint16ByRange]
  repeat' split
  all_goals first
    | apply onlyClears_reset
    | apply onlyClears_visit
    | apply onlyClears_refl

theorem matchUint16ByRegexp_oc (bs : BlockSearch) (ch : ColumnHeader) (bm : List Bool) (re : String → Bool) :
    onlyClears (matchUint16ByRegexp bs ch bm re) bm := by
  simp only [matchUint16ByRegexp]
  repeat' split
  all_goals first
    | apply onlyClears_reset
    | apply onlyClears_visit
    | apply onlyClears_refl

theorem matchUint16ByPrefix_oc (bs : BlockSearch) (ch : ColumnHeader) (bm : List Bool) (pfx : String) :
    onlyClears (matchUint16ByPrefix bs ch bm pfx) bm := by
  simp only [matchUint16ByPrefix]
  repeat' split
  all_goals first
    | apply onlyClears_reset
    | apply onlyClears_visit
    | apply onlyClears_refl

theorem matchUint16ByExactValue_oc (prims : Prims) (bs : BlockSearch) (ch : ColumnHeader) (bm : List Bool) (phrase : String) (tokens : List String) :
    onlyClears (matchUint16ByExactValue prims bs ch bm phrase tokens) bm := by
  simp only [matchUint16ByExactValue]
  repeat' split
  all_goals first
    | apply onlyClears_reset
    | apply onlyClears_visit
    | apply matchBinaryValue_oc
    | apply onlyClears_refl

theorem matchUint32ByStringRange_oc (bs : BlockSearch) (ch : ColumnHeader) (bm : List Bool) (minValue maxValue : String) :
    onlyClears (matchUint32ByStringRange bs ch bm minValue maxValue) bm := by
  simp only [matchUint32ByStringRange]
  repeat' split
  all_goals first
    | apply onlyClears_reset
    | apply onlyClears_visit
    | apply onlyClears_refl

theorem matchUint32ByLenRange_oc (bs : BlockSearch) (ch : ColumnHeader) (bm : List Bool) (minLen maxLen : Nat) :
    onlyClears (matchUint32ByLenRange bs ch bm minLen maxLen) bm := by
  simp only [matchUint32ByLenRange]
  repeat' split
  all_goals first
    | apply onlyClears_reset
    | apply onlyClears_visit
    | apply onlyClears_refl

theorem matchUint32ByRange_oc (bs : BlockSearch) (ch : ColumnHeader) (bm : List Bool) (minValue maxValue : Rat) :
    onlyClears (matchUint32ByRange bs ch bm minValue maxValue) bm := by
  simp only [matchUint32ByRange]
  repeat' split
  all_goals first
    | apply onlyClears_reset
    | apply onlyClears_visit
    | apply onlyClears_refl

theorem matchUint32ByRegexp_oc (bs : BlockSearch) (ch : ColumnHeader) (bm : List Bool) (re : String → Bool) :
    onlyClears (matchUint32ByRegexp bs ch bm re) bm := by
  simp only [matchUint32ByRegexp]
  repeat' split
  all_goals first
    | apply onlyClears_reset
    | apply onlyClears_visit
    | apply onlyClears_refl

theorem matchUint32ByPrefix_oc (bs : BlockSearch) (ch : ColumnHeader) (bm : List Bool) (pfx : String) :
    onlyClears (matchUint32ByPrefix bs ch bm pfx) bm := by
  simp only [matchUint32ByPrefix]
  repeat' split
  all_goals first
    | apply onlyClears_reset
    | apply onlyClears_visit
    | apply onlyClears_refl

theorem matchUint32ByExactValue_oc (prims : Prims) (bs : BlockSearch) (ch : ColumnHeader) (bm : List Bool) (phrase : String) (tokens : List String) :
    onlyClears (matchUint32ByExactValue prims bs ch bm phrase tokens) bm := by
  simp only [matchUint32ByExactValue]
  repeat' split
  all_goals first
    | apply onlyClears_reset
    | apply onlyClears_visit
    | apply matchBinaryValue_oc
    | apply onlyClears_refl

theorem matchUint64ByStringRange_oc (bs : BlockSearch) (ch : ColumnHeader) (bm : List Bool) (minValue maxValue : String) :
    onlyClears (matchUint64ByStringRange bs ch bm minValue maxValue) bm := by
  simp only [matchUint64ByStringRange]
  repeat' split
  all_goals first
    | apply onlyClears_reset
    | apply onlyClears_visit
    | apply onlyClears_refl

theorem matchUint64ByLenRange_oc (bs : BlockSearch) (ch : ColumnHeader) (bm : List Bool) (minLen maxLen : Nat) :
    onlyClears (matchUint64ByLenRange bs ch bm minLen maxLen) bm := by
  simp only [matchUint64ByLenRange]
  repeat' split
  all_goals first
    | apply onlyClears_reset
    | apply onlyClears_visit
    | apply onlyClears_refl

theorem matchUint64ByRange_oc (bs : BlockSearch) (ch : ColumnHeader) (bm : List Bool) (minValue maxValue : Rat) :
    onlyClears (matchUint64ByRange bs ch bm minValue maxValue) bm := by
  simp only [matchUint64ByRange]
  repeat' split
  all_goals first
    | apply onlyClears_reset
    | apply onlyClears_visit
    | apply onlyClears_refl

theorem matchUint64ByRegexp_oc (bs : BlockSearch) (ch : ColumnHeader) (bm : List Bool) (re : String → Bool) :
    onlyClears (matchUint64ByRegexp bs ch bm re) bm := by
  simp only [matchUint64ByRegexp]
  repeat' split
  all_goals first
    | apply onlyClears_reset
    | apply onlyClears_visit
    | apply onlyClears_refl

theorem matchUint64ByPrefix_oc (bs : BlockSearch) (ch : ColumnHeader) (bm : List Bool) (pfx : String) :
    onlyClears (matchUint64ByPrefix bs ch bm pfx) bm := by
  simp only [matchUint64ByPrefix]
  repeat' split
  all_goals first
    | apply onlyClears_reset
    | apply onlyClears_visit
    | apply onlyClears_refl

theorem matchUint64ByExactValue_oc (prims : Prims) (bs : BlockSearch) (ch : ColumnHeader) (bm : List Bool) (phrase : String) (tokens : List String) :
    onlyClears (matchUint64ByExactValue prims bs ch bm phrase tokens) bm := by
  simp only [matchUint64ByExactValue]
  repeat' split
  all_goals first
    | apply onlyClears_reset
    | apply onlyClears_visit
    | apply matchBinaryValue_oc
    | apply onlyClears_refl

theorem streamFilterApply_oc (sf : StreamFilterArgs) (bs : BlockSearch) (bm : List Bool) :
    onlyClears (streamFilterApply sf bs bm) bm := by
  simp only [streamFilterApply]
  split
  · apply onlyClears_refl
  · split
    · apply onlyClears_reset
    · apply onlyClears_refl

theorem exactFilterApply_oc (prims : Prims) (fieldName value : String) (bs : BlockSearch) (bm : List Bool) :
    onlyClears (exactFilterApply prims fieldName value bs bm) bm := by
  simp only [exactFilterApply]
  split
  · split
    · apply onlyClears_reset
    · apply onlyClears_refl
  · split
    · split
      · apply onlyClears_reset
      · apply onlyClears_refl
    · split
      · apply matchStringByExactValue_oc
      · apply matchValuesDictByExactValue_oc
      · apply matchUint8ByExactValue_oc
      · apply matchUint16ByExactValue_oc
      · apply matchUint32ByExactValue_oc
      · apply matchUint64ByExactValue_oc
      · apply matchFloat64ByExactValue_oc
      · apply matchIPv4ByExactValue_oc
      · apply matchTimestampISO8601ByExactValue_oc

theorem inFilterApply_oc (prims : Prims) (fieldName : String) (values : List String) (bs : BlockSearch) (bm : List Bool) :
    onlyClears (inFilterApply prims fieldName values bs bm) bm := by
  simp only [inFilterApply]
  split
  · apply onlyClears_reset
  · split
    · split
      · apply onlyClears_reset
      · apply onlyClears_refl
    · split
      · split
        · apply onlyClears_reset
        · apply onlyClears_refl
      · split
        · apply matchAnyValue_oc
        · apply matchValuesDictByAnyValue_oc
        · apply matchAnyValue_oc
        · apply matchAnyValue_oc
        · apply matchAnyValue_oc
        · apply matchAnyValue_oc
        · apply matchAnyValue_oc
        · apply matchAnyValue_oc
        · apply matchAnyValue_oc

theorem ipv4RangeFilterApply_oc (fieldName : String) (minValue maxValue : Nat) (bs : BlockSearch) (bm : List Bool) :
    onlyClears (ipv4RangeFilterApply fieldName minValue maxValue bs bm) bm := by
  simp only [ipv4RangeFilterApply]
  split
  · apply onlyClears_reset
  · split
    · split
      · apply onlyClears_reset
      · apply onlyClears_refl
    · split
      · apply onlyClears_reset
      · split
        · apply matchStringByIPv4Range_oc
        · apply matchValuesDictByIPv4Range_oc
        · apply onlyClears_reset
        · apply onlyClears_reset
        · apply onlyClears_reset
        · apply onlyClears_reset
        · apply onlyClears_reset
        · apply matchIPv4ByRange_oc
        · apply onlyClears_reset

theorem stringRangeFilterApply_oc (prims : Prims) (fieldName minValue maxValue : String) (bs : BlockSearch) (bm : List Bool) :
    onlyClears (stringRangeFilterApply prims fieldName minValue maxValue bs bm) bm := by
  simp only [stringRangeFilterApply]
  split
  · apply onlyClears_reset
  · split
    · split
      · apply onlyClears_reset
      · apply onlyClears_refl
    · split
      · split
        · apply onlyClears_reset
        · apply onlyClears_refl
      · split
        · apply matchStringByStringRange_oc
        · apply matchValuesDictByStringRange_oc
        · apply matchUint8ByStringRange_oc
        · apply matchUint16ByStringRange_oc
        · apply matchUint32ByStringRange_oc
        · apply matchUint64ByStringRange_oc
        · apply matchFloat64ByStringRange_oc
        · apply matchIPv4ByStringRange_oc
        · apply matchTimestampISO8601ByStringRange_oc

theorem lenRangeFilterApply_oc (prims : Prims) (fieldName : String) (minLen maxLen : Nat) (bs : BlockSearch) (bm : List Bool) :
    onlyClears (lenRangeFilterApply prims fieldName minLen maxLen bs bm) bm := by
  simp only [lenRangeFilterApply]
  split
  · apply onlyClears_reset
  · split
    · split
      · apply onlyClears_reset
      · apply onlyClears_refl
    · split
      · split
        · apply onlyClears_reset
        · apply onlyClears_refl
      · split
        · apply matchStringByLenRange_oc
        · apply matchValuesDictByLenRange_oc
        · apply matchUint8ByLenRange_oc
        · apply matchUint16ByLenRange_oc
        · apply matchUint32ByLenRange_oc
        · apply matchUint64ByLenRange_oc
        · apply matchFloat64ByLenRange_oc
        · apply matchIPv4ByLenRange_oc
        · apply matchTimestampISO8601ByLenRange_oc

theorem rangeFilterApply_oc (prims : Prims) (fieldName : String) (minValue maxValue : Rat) (bs : BlockSearch) (bm : List Bool) :
    onlyClears (rangeFilterApply prims fieldName minValue maxValue bs bm) bm := by
  simp only [rangeFilterApply]
  split
  · apply onlyClears_reset
  · split
    · split
      · apply onlyClears_reset
      · apply onlyClears_refl
    · split
      · apply onlyClears_reset
      · split
        · apply matchStringByRange_oc
        · apply matchValuesDictByRange_oc
        · apply matchUint8ByRange_oc
        · apply matchUint16ByRange_oc
        · apply matchUint32ByRange_oc
        · apply matchUint64ByRange_oc
        · apply matchFloat64ByRange_oc
        · apply onlyClears_reset
        · apply onlyClears_reset

theorem regexpFilterApply_oc (prims : Prims) (fieldName : String) (re : String → Bool) (bs : BlockSearch) (bm : List Bool) :
    onlyClears (regexpFilterApply prims fieldName re bs bm) bm := by
  simp only [regexpFilterApply]
  split
  · split
    · apply onlyClears_reset
    · apply onlyClears_refl
  · split
    · split
      · apply onlyClears_reset
      · apply onlyClears_refl
    · split
      · apply matchStringByRegexp_oc
      · apply matchValuesDictByRegexp_oc
      · apply matchUint8ByRegexp_oc
      · apply matchUint16ByRegexp_oc
      · apply matchUint32ByRegexp_oc
      · apply matchUint64ByRegexp_oc
      · apply matchFloat64ByRegexp_oc
      · apply matchIPv4ByRegexp_oc
      · apply matchTimestampISO8601ByRegexp_oc

theorem anyCasePrefixFilterApply_oc (prims : Prims) (fieldName pfx : String) (bs : BlockSearch) (bm : List Bool) :
    onlyClears (anyCasePrefixFilterApply prims fieldName pfx bs bm) bm := by
  simp only [anyCasePrefixFilterApply]
  split
  · split
    · apply onlyClears_reset
    · apply onlyClears_refl
  · split
    · apply onlyClears_reset
    · split
      · apply matchStringByAnyCasePrefix_oc
      · apply matchValuesDictByAnyCasePrefix_oc
      · apply matchUint8ByPrefix_oc
      · apply matchUint16ByPrefix_oc
      · apply matchUint32ByPrefix_oc
      · apply matchUint64ByPrefix_oc
      · apply matchFloat64ByPrefix_oc
      · apply matchIPv4ByPrefix_oc
      · apply matchTimestampISO8601ByPrefix_oc

theorem prefixFilterApply_oc (prims : Prims) (fieldName pfx : String) (bs : BlockSearch) (bm : List Bool) :
    onlyClears (prefixFilterApply prims fieldName pfx bs bm) bm := by
  simp only [prefixFilterApply]
  split
  · split
    · apply onlyClears_reset
    · apply onlyClears_refl
  · split
    · apply onlyClears_reset
    · split
      · apply matchStringByPrefix_oc
      · apply matchValuesDictByPrefix_oc
      · apply matchUint8ByPrefix_oc
      · apply matchUint16ByPrefix_oc
      · apply matchUint32ByPrefix_oc
      · apply matchUint64ByPrefix_oc
      · apply matchFloat64ByPrefix_oc
      · apply matchIPv4ByPrefix_oc
      · apply matchTimestampISO8601ByPrefix_oc

theorem anyCasePhraseFilterApply_oc (prims : Prims) (fieldName phrase : String) (bs : BlockSearch) (bm : List Bool) :
    onlyClears (anyCasePhraseFilterApply prims fieldName phrase bs bm) bm := by
  simp only [anyCasePhraseFilterApply]
  split
  · split
    · apply onlyClears_reset
    · apply onlyClears_refl
  · split
    · split
      · apply onlyClears_reset
      · apply onlyClears_refl
    · split
      · apply matchStringByAnyCasePhrase_oc
      · apply matchValuesDictByAnyCasePhrase_oc
      · apply matchUint8ByExactValue_oc
      · apply matchUint16ByExactValue_oc
      · apply matchUint32ByExactValue_oc
      · apply matchUint64ByExactValue_oc
      · apply matchFloat64ByPhrase_oc
      · apply matchIPv4ByPhrase_oc
      · apply matchTimestampISO8601ByPhrase_oc

theorem phraseFilterApply_oc (prims : Prims) (fieldName phrase : String) (bs : BlockSearch) (bm : List Bool) :
    onlyClears (phraseFilterApply prims fieldName phrase bs bm) bm := by
  simp only [phraseFilterApply]
  split
  · split
    · apply onlyClears_reset
    · apply onlyClears_refl
  · split
    · split
      · apply onlyClears_reset
      · apply onlyClears_refl
    · split
      · apply matchStringByPhrase_oc
      · apply matchValuesDictByPhrase_oc
      · apply matchUint8ByExactValue_oc
      · apply matchUint16ByExactValue_oc
      · apply matchUint32ByExactValue_oc
      · apply matchUint64ByExactValue_oc
      · apply matchFloat64ByPhrase_oc
      · apply matchIPv4ByPhrase_oc
      · apply matchTimestampISO8601ByPhrase_oc

/-- C2: every filter variant's `apply` only clears bits: any bit set in the
bitmap after `apply` was already set before, and no cleared bit is ever set,
for every block search context and bitmap. -/
theorem applyFilter_onlyClearsBits (prims : Prims) (f : Filter) (bs : BlockSearch)
    (bm : List Bool) (i : Nat)
    (h : (applyFilter prims f bs bm).getD i false = true) :
    bm.getD i false = true := by
  cases f with
  | streamFilter sf => exact streamFilterApply_oc sf bs bm i h
  | exactFilter fieldName value => exact exactFilterApply_oc prims fieldName value bs bm i h
  | inFilter fieldName values => exact inFilterApply_oc prims fieldName values bs bm i h
  | ipv4RangeFilter fieldName mn mx => exact ipv4RangeFilterApply_oc fieldName mn mx bs bm i h
  | stringRangeFilter fieldName mn mx =>
    exact stringRangeFilterApply_oc prims fieldName mn mx bs bm i h
  | lenRangeFilter fieldName mn mx => exact lenRangeFilterApply_oc prims fieldName mn mx bs bm i h
  | rangeFilter fieldName mn mx => exact rangeFilterApply_oc prims fieldName mn mx bs bm i h
  | regexpFilter fieldName re => exact regexpFilterApply_oc prims fieldName re bs bm i h
  | anyCasePrefixFilter fieldName pfx =>
    exact anyCasePrefixFilterApply_oc prims fieldName pfx bs bm i h
  | prefixFilter fieldName pfx => exact prefixFilterApply_oc prims fieldName pfx bs bm i h
  | anyCasePhraseFilter fieldName phrase =>
    exact anyCasePhraseFilterApply_oc prims fieldName phrase bs bm i h
  | phraseFilter fieldName phrase => exact phraseFilterApply_oc prims fieldName phrase bs bm i h

theorem applyFilter_onlyClearsBits_witness : [true].getD 0 false = true :=
  applyFilter_onlyClearsBits trivPrims (Filter.phraseFilter "f" "") emptyBlockSearch
    [true] 0 (by decide)

theorem initTokenSets_ne_nil (tokenize : String → List String) (v : String)
    (rest : List String) : initTokenSets tokenize (v :: rest) ≠ [] := by
  simp only [initTokenSets]
  split <;> simp

theorem matchBloomFilterAnyTokenSet_emptyBloom (prims : Prims) (bs : BlockSearch)
    (ch : ColumnHeader) (tokenSets : List (List String))
    (hbloom : bs.getBloomFilterForColumn ch = []) (hne : tokenSets ≠ []) :
    matchBloomFilterAnyTokenSet prims bs ch tokenSets = true := by
  unfold matchBloomFilterAnyTokenSet
  rw [if_neg (by simpa using hne)]
  split
  · rfl
  · cases tokenSets with
    | nil => exact absurd rfl hne
    | cons t ts => simp [hbloom, containsAll]

/-- C9: an in-set filter with values `["1","2","3"]` applied to a uint8
column (no const value, bloom index absent so the gate passes) keeps exactly
the rows whose stored one-byte value belongs to the precomputed parsed set,
which is exactly the encodings of 1, 2 and 3 — in particular rows holding
byte value 2 remain set and rows holding other bytes clear. -/
theorem inFilter_uint8_inSet (prims : Prims) (fieldName : String) (bs : BlockSearch)
    (ch : ColumnHeader) (bm : List Bool) (i : Nat)
    (hconst : bs.getConstColumnValue fieldName = "")
    (hch : bs.getColumnHeader fieldName = some ch)
    (htype : ch.valueType = ValueType.uint8)
    (hbloom : bs.getBloomFilterForColumn ch = []) :
    initUint8Values ["1", "2", "3"] =
      [bytesToString [1], bytesToString [2], bytesToString [3]] ∧
    (inFilterApply prims fieldName ["1", "2", "3"] bs bm).getD i false =
      (bm.getD i false &&
        (initUint8Values ["1", "2", "3"]).contains
          ((bs.getValuesForColumn ch).getD i "")) := by
  refine ⟨by decide, ?_⟩
  unfold inFilterApply
  simp only [hconst, hch, htype, ne_eq, not_true_eq_false, if_false]
  rw [if_neg (by decide)]
  unfold matchAnyValue
  rw [matchBloomFilterAnyTokenSet_emptyBloom prims bs ch _ hbloom
    (initTokenSets_ne_nil prims.tokenize _ _)]
  simp only [Bool.not_true, Bool.false_eq_true, if_false]
  rw [visitValues_getD]

theorem inFilter_uint8_inSet_witness :
    (inFilterApply trivPrims "f" ["1", "2", "3"] uint8BlockSearch
        [true, true, true, true]).getD 1 false =
      ([true, true, true, true].getD 1 false &&
        (initUint8Values ["1", "2", "3"]).contains
          ((uint8BlockSearch.getValuesForColumn uint8Header).getD 1 "")) :=
  (inFilter_uint8_inSet trivPrims "f" uint8BlockSearch uint8Header
    [true, true, true, true] 1 rfl rfl rfl rfl).2

end Logstorage
